import Mathlib

/-!
# Verification of the agola run-configuration compiler

A shallow embedding of the `runconfig` package of the agola CI/CD
orchestrator: the run-config data model, the dependency-graph analyzer
(`GenTasksLevels`, `GetAllParents`, `CheckRunConfig`) and the run-config
compiler (`GenRunConfig`).

The repository snapshot contains only the package's test file
(`runconfig_test.go`); the implementation file of the `runconfig` package is
not part of the snapshot.  The definitions below are therefore modelled from
the specification's description of each routine, and are checked against the
concrete input/output vectors of the test file, which is part of the source.

Go `map[string]...` values are embedded as association lists
(`List (String × _)`) or as lists of records keyed by a name/ID field; Go's
guarantee that map keys are unique appears as `Nodup` hypotheses.  Go's
multi-value `(T, error)` returns are embedded as `Except`.
-/

/-! ## Data model: run config (output side, rstypes) -/

/-- Go `rstypes.RunConfigTaskDepend`: an edge to a prerequisite task by ID, with
an optional per-edge condition set (opaque pass-through here). -/
structure RunConfigTaskDepend where
  TaskID : String
  Conditions : List String := []
deriving Repr, DecidableEq

/-- A resolved container of `rstypes.Runtime`: image plus a fully resolved
(string-valued) environment. -/
structure RSContainer where
  Image : String
  Environment : List (String × String)
  User : String := ""
deriving Repr, DecidableEq

/-- Go `rstypes.Runtime`: a type tag and an ordered sequence of containers. -/
structure RSRuntime where
  rtype : String
  Arch : String := ""
  Containers : List RSContainer
deriving Repr, DecidableEq

/-- A resolved step (`rstypes.RunStep` and opaque other kinds).  `run` steps
carry a name, a command and a resolved step-scoped environment; non-`run`
step kinds are carried through opaquely. -/
inductive RSStep where
  | run (name command : String) (env : List (String × String))
  | other (tag : String)
deriving Repr, DecidableEq

/-- Go `rstypes.RunConfigTask`: a compiled task of the run config. -/
structure RunConfigTask where
  ID : String
  Name : String := ""
  Level : Int := -1
  Depends : List RunConfigTaskDepend := []
  Runtime : Option RSRuntime := none
  Environment : List (String × String) := []
  Steps : List RSStep := []
  Skip : Bool := false
  IgnoreFailure : Bool := false
  NeedsApproval : Bool := false
deriving Repr, DecidableEq

/-- Go `rstypes.RunConfig`: name, resolved global environment, task map.  The Go
`map[string]*RunConfigTask` keyed by task ID is embedded as a list of tasks;
key uniqueness is the `Nodup` of the projected ID list. -/
structure RunConfig where
  Name : String := ""
  Environment : List (String × String) := []
  Tasks : List RunConfigTask
deriving Repr, DecidableEq

/-! ## Graph analyzer: basic graph notions -/

/-- Look up a task by ID in the task map (Go `rc.Tasks[id]`). -/
def findTask (tasks : List RunConfigTask) (id : String) : Option RunConfigTask :=
  tasks.find? (fun t => t.ID == id)

/-- The IDs a task directly depends on (its parents' IDs); `[]` when the ID
is not in the map. -/
def succs (tasks : List RunConfigTask) (id : String) : List String :=
  match findTask tasks id with
  | some t => t.Depends.map (fun d => d.TaskID)
  | none => []

/-- There is a walk of exactly `k` depends-edges from `a` to `b`. -/
def existsPathLen (tasks : List RunConfigTask) : Nat → String → String → Bool
  | 0, a, b => a == b
  | k+1, a, b => (succs tasks a).any (fun c => existsPathLen tasks k c b)

/-- The dependency graph has no cycle: no node reaches itself by a walk of
one or more depends-edges. -/
def Acyclic (tasks : List RunConfigTask) : Prop :=
  ∀ k a, existsPathLen tasks (k+1) a a = false

/-- The node `a` lies on a dependency cycle: some walk of one or more
depends-edges leads from `a` back to `a`. -/
def OnCycle (tasks : List RunConfigTask) (a : String) : Prop :=
  ∃ k, existsPathLen tasks (k+1) a a = true

/-! ## Graph analyzer: GenTasksLevels -/

/-- The level currently assigned to the task with the given ID, `-1`
(unassigned) when the ID is not in the map. -/
def levelOf (tasks : List RunConfigTask) (id : String) : Int :=
  match findTask tasks id with
  | some t => t.Level
  | none => -1

/-- Maximum of a list of integers, `-1` for the empty list (so that
`1 + listMax parentLevels` is `0` for a task with no parents). -/
def listMax : List Int → Int
  | [] => -1
  | x :: xs => max x (listMax xs)

/-- One relaxation of a single task: when every parent has a level `≥ 0`,
set the task's level to `1 + max(parents' levels)` (`0` when there are no
parents); otherwise leave the task unchanged. -/
def levelsStep (tasks : List RunConfigTask) (t : RunConfigTask) : RunConfigTask :=
  if (t.Depends.map (fun d => levelOf tasks d.TaskID)).all (fun l => decide (0 ≤ l))
  then { t with Level := 1 + listMax (t.Depends.map (fun d => levelOf tasks d.TaskID)) }
  else t

/-- One full pass of the iterative relaxation, updating every task
simultaneously from the previous state. -/
def levelsPass (tasks : List RunConfigTask) : List RunConfigTask :=
  tasks.map (levelsStep tasks)

/-- Initialization: every task's level is reset to `-1` (unassigned). -/
def initLevels (tasks : List RunConfigTask) : List RunConfigTask :=
  tasks.map (fun t => { t with Level := -1 })

/-- Modelled from the spec: `GenTasksLevels` of the `runconfig` package,
whose implementation file is missing from the snapshot (only its tests are
present).  Per the spec: initialize every level to `-1`, run `|tasks| + 1`
relaxation passes (each pass sets the level of every task whose parents all
have levels `≥ 0` to `1 + max(parents' levels)`, `0` for no parents), and
fail with `circular dependency detected` when a task is still unassigned
afterwards. -/
def GenTasksLevels (rc : RunConfig) : Except String RunConfig :=
  let final := levelsPass^[rc.Tasks.length + 1] (initLevels rc.Tasks)
  if final.all (fun t => decide (0 ≤ t.Level)) then
    .ok { rc with Tasks := final }
  else
    .error "circular dependency detected"

/-! ## Graph analyzer: GetAllParents -/

/-- Whether `b` is reachable from `a` by a walk of at least one and at most
`|tasks|` depends-edges (any reachable node is reachable within `|tasks|`
edges, since a minimal walk repeats no node). -/
def reachableB (tasks : List RunConfigTask) (a b : String) : Bool :=
  (List.range tasks.length).any (fun k => existsPathLen tasks (k+1) a b)

/-- Modelled from the spec: `GetAllParents` of the `runconfig` package, whose
implementation file is missing from the snapshot (only its tests are
present).  Per the spec it returns the set of all transitively reachable
depends of a task, deduplicated, without pruning the start node — so the
task itself is in the set exactly when it lies on a cycle.  The set is
embedded as the (duplicate-free) list of task IDs reachable by a walk of one
or more depends-edges. -/
def GetAllParents (tasks : List RunConfigTask) (t : RunConfigTask) : List String :=
  (tasks.map (fun t => t.ID)).filter (fun b => reachableB tasks t.ID b)

/-! ## Validator: CheckRunConfig -/

/-- The name of the task with the given ID (empty when absent). -/
def taskNameOf (tasks : List RunConfigTask) (id : String) : String :=
  match findTask tasks id with
  | some t => t.Name
  | none => ""

/-- The upstream reported in a cycle diagnostic for task `t`: among `t`'s
transitive parents, the one whose immediate depend leads back to `t`
(the first such parent when several do). -/
def cycleUpstream (tasks : List RunConfigTask) (t : RunConfigTask) : String :=
  match (GetAllParents tasks t).filter (fun pid => t.ID ∈ succs tasks pid) with
  | [] => ""
  | pid :: _ => taskNameOf tasks pid

/-- Ascending order on task names (lexicographic on the character
sequences), used to order the validator's diagnostics reproducibly. -/
def taskNameLe (a b : RunConfigTask) : Prop :=
  a.Name.data ≤ b.Name.data

instance : DecidableRel taskNameLe := fun a b => by
  unfold taskNameLe; infer_instance

instance : IsTotal RunConfigTask taskNameLe :=
  ⟨fun a b => le_total a.Name.data b.Name.data⟩

instance : IsTrans RunConfigTask taskNameLe :=
  ⟨fun _ _ _ h h2 => le_trans h h2⟩

/-- The cycle diagnostic emitted for a task sitting on a cycle, matching the
Go format string `circular dependency between task %q and tasks %q`. -/
def cycleDiag (tasks : List RunConfigTask) (t : RunConfigTask) : String :=
  "circular dependency between task \"" ++ t.Name ++ "\" and tasks \"" ++
    cycleUpstream tasks t ++ "\""

/-- Modelled from the spec: `CheckRunConfig` of the `runconfig` package,
whose implementation file is missing from the snapshot (only its tests are
present).  Per the spec it aggregates every failure into one composite
error value; the cycle rule computes `GetAllParents` for every task and
emits one diagnostic per task appearing in its own parent set, ordered by
task name for reproducibility.  The composite error value is embedded as
the list of diagnostic strings (`[]` meaning no error); the structural
checks other than the cycle rule are not exercised by the tests and are not
modelled. -/
def CheckRunConfig (rc : RunConfig) : List String :=
  (List.insertionSort taskNameLe rc.Tasks).filterMap
    (fun t => if t.ID ∈ GetAllParents rc.Tasks t then some (cycleDiag rc.Tasks t) else none)

/-! ## Data model: user config (input side) -/

/-- Go `config.EnvVarType`: tag of an environment value — a literal string or a
reference to a named variable. -/
inductive EnvVarType where
  | string
  | fromVariable
deriving Repr, DecidableEq

/-- Go `config.EnvVar`: a tagged environment value; `Value` holds the literal
string or the referenced variable's name according to the tag. -/
structure EnvVar where
  etype : EnvVarType
  Value : String
deriving Repr, DecidableEq

/-- Go `types.WhenConditionType`: literal match or anchored regular-expression
match. -/
inductive WhenConditionType where
  | literal
  | regExp
deriving Repr, DecidableEq

/-- Go `types.WhenCondition`: a single match entry. -/
structure WhenCondition where
  Match : String
  ctype : WhenConditionType := .literal
deriving Repr, DecidableEq

/-- Go `types.WhenConditions`: an include/exclude pair of condition lists. -/
structure WhenConditions where
  Include : List WhenCondition := []
  Exclude : List WhenCondition := []
deriving Repr, DecidableEq

/-- Go `types.When`: three independent optional conditions on the trigger
context. -/
structure When where
  Branch : Option WhenConditions := none
  Tag : Option WhenConditions := none
  Ref : Option WhenConditions := none
deriving Repr, DecidableEq

/-- Go `config.Container`: image plus container-scoped environment mapping. -/
structure CContainer where
  Image : String
  Environment : List (String × EnvVar) := []
  User : String := ""
deriving Repr, DecidableEq

/-- Go `config.Runtime`: a runtime template, referenced by name. -/
structure CRuntime where
  Name : String
  rtype : String
  Arch : String := ""
  Containers : List CContainer := []
deriving Repr, DecidableEq

/-- Go `config.Step`s of a task template: a `run` step (name, command and
step-scoped environment) or an opaque other step kind. -/
inductive CStep where
  | run (name command : String) (env : List (String × EnvVar))
  | other (tag : String)
deriving Repr, DecidableEq

/-- Go `config.Task`: a task template, referenced by name from elements. -/
structure CTask where
  Name : String
  Runtime : String
  Environment : List (String × EnvVar) := []
  WorkingDir : String := ""
  Shell : String := ""
  User : String := ""
  Steps : List CStep := []
deriving Repr, DecidableEq

/-- Go `config.Depend`: a dependency edge of an element, by target element
name, with an opaque per-edge condition set. -/
structure Depend where
  ElementName : String
  Conditions : List String := []
deriving Repr, DecidableEq

/-- Go `config.Element`: one node of a pipeline. -/
structure Element where
  Name : String
  Task : String
  Depends : List Depend := []
  IgnoreFailure : Bool := false
  Approval : Bool := false
  When : Option When := none
deriving Repr, DecidableEq

/-- Go `config.Pipeline`: a named collection of elements. -/
structure Pipeline where
  Name : String
  Elements : List Element := []
deriving Repr, DecidableEq

/-- Go `config.Config`: the parsed user configuration.  The Go name-keyed maps
are embedded as lists of records keyed by their `Name` field. -/
structure Config where
  Runtimes : List CRuntime := []
  Tasks : List CTask := []
  Pipelines : List Pipeline := []
deriving Repr, DecidableEq

/-! ## Value resolver -/

/-- Resolve one `EnvVar` against the vars table: a literal is used
verbatim; a variable reference is looked up by name, a missing variable
resolving to the empty string (not an error). -/
def resolveEnvVar (vars : List (String × String)) (ev : EnvVar) : String :=
  match ev.etype with
  | .string => ev.Value
  | .fromVariable =>
    match vars.lookup ev.Value with
    | some v => v
    | none => ""

/-- Modelled from the spec: the value resolver (`genEnv` of the `runconfig`
package, whose implementation file is missing from the snapshot).  Resolves
an environment mapping of name to `EnvVar` into a mapping of name to string
against the vars table; resolution is pure and per-entry. -/
def genEnv (cenv : List (String × EnvVar)) (vars : List (String × String)) :
    List (String × String) :=
  cenv.map (fun kv => (kv.1, resolveEnvVar vars kv.2))

/-! ## Condition evaluator

The regular-expression engine is an external collaborator (Go's `regexp`
package); it is abstracted as an injected matcher `rm : pattern → value →
Bool`, exactly as the identity generator is injected. -/

/-- One `WhenCondition` against a context string: literal means string
equality, regexp defers to the injected matcher. -/
def matchCondition (rm : String → String → Bool) (wc : WhenCondition) (s : String) : Bool :=
  match wc.ctype with
  | .literal => wc.Match == s
  | .regExp => rm wc.Match s

/-- An include/exclude block matches iff the include list is empty or some
include entry matches, and no exclude entry matches. -/
def matchWhenConditions (rm : String → String → Bool) (wcs : WhenConditions) (s : String) :
    Bool :=
  (wcs.Include.isEmpty || wcs.Include.any (fun c => matchCondition rm c s)) &&
    !(wcs.Exclude.any (fun c => matchCondition rm c s))

/-- One optional condition: absent condition always matches; a present
condition with an absent (empty) context value short-circuits to no match. -/
def matchOptCondition (rm : String → String → Bool) (owcs : Option WhenConditions)
    (s : String) : Bool :=
  match owcs with
  | none => true
  | some wcs => if s == "" then false else matchWhenConditions rm wcs s

/-- Modelled from the spec: the condition evaluator.  Absent `When` means
active; otherwise every present condition must match its context value. -/
def matchWhen (rm : String → String → Bool) (w : Option When) (branch tag ref : String) :
    Bool :=
  match w with
  | none => true
  | some w =>
    matchOptCondition rm w.Branch branch && matchOptCondition rm w.Tag tag &&
      matchOptCondition rm w.Ref ref

/-! ## Run config compiler -/

/-- Resolve the steps of a task template: `run` steps get their step-scoped
environment resolved, other step kinds are copied verbatim. -/
def genRunTaskSteps (vars : List (String × String)) (steps : List CStep) : List RSStep :=
  steps.map (fun s =>
    match s with
    | .run name command env => .run name command (genEnv env vars)
    | .other tag => .other tag)

/-- Resolve a runtime template: every container's environment is resolved
against the vars table. -/
def genRuntime (vars : List (String × String)) (rt : CRuntime) : RSRuntime :=
  { rtype := rt.rtype, Arch := rt.Arch,
    Containers := rt.Containers.map (fun c =>
      { Image := c.Image, Environment := genEnv c.Environment vars, User := c.User }) }

/-- Translate the depend edges of an element: target element names become
task IDs through the identity generator; per-edge conditions are
preserved. -/
def genDepends (uuidf : String → String) (el : Element) : List RunConfigTaskDepend :=
  el.Depends.map (fun d => { TaskID := uuidf d.ElementName, Conditions := d.Conditions })

/-- Modelled from the spec: compilation of one pipeline element into a
`RunConfigTask` (part of `GenRunConfig`, whose implementation file is
missing from the snapshot).  Looks up the referenced task template and
runtime template (failing on a missing reference), translates depend edges
(failing on an unknown target element), resolves the runtime-, task- and
step-scoped environments, evaluates the `when` predicate into the `skip`
flag, and passes `ignoreFailure`/`approval` through. -/
def compileElement (uuidf : String → String) (rm : String → String → Bool) (c : Config)
    (cp : Pipeline) (vars : List (String × String)) (branch tag ref : String)
    (el : Element) : Except (List String) RunConfigTask :=
  match c.Tasks.find? (fun t => t.Name == el.Task) with
  | none => .error ["unknown task reference"]
  | some ct =>
    match c.Runtimes.find? (fun r => r.Name == ct.Runtime) with
    | none => .error ["unknown runtime reference"]
    | some rt =>
      if el.Depends.all (fun d => cp.Elements.any (fun e2 => e2.Name == d.ElementName)) then
        .ok { ID := uuidf el.Name, Name := el.Name, Level := -1,
              Depends := genDepends uuidf el,
              Runtime := some (genRuntime vars rt),
              Environment := genEnv ct.Environment vars,
              Steps := genRunTaskSteps vars ct.Steps,
              Skip := !matchWhen rm el.When branch tag ref,
              IgnoreFailure := el.IgnoreFailure,
              NeedsApproval := el.Approval }
      else .error ["unknown depend reference"]

/-- The per-element compilation results of a pipeline, in element order. -/
def compileResults (uuidf : String → String) (rm : String → String → Bool) (c : Config)
    (cp : Pipeline) (vars : List (String × String)) (branch tag ref : String) :
    List (Except (List String) RunConfigTask) :=
  cp.Elements.map (compileElement uuidf rm c cp vars branch tag ref)

/-- All element-compilation errors, aggregated in element order. -/
def compileErrs (results : List (Except (List String) RunConfigTask)) : List String :=
  results.flatMap (fun r =>
    match r with
    | .error es => es
    | .ok _ => [])

/-- Compile every element of the pipeline, aggregating every element error
rather than stopping at the first. -/
def genRunConfigTasks (uuidf : String → String) (rm : String → String → Bool) (c : Config)
    (cp : Pipeline) (vars : List (String × String)) (branch tag ref : String) :
    Except (List String) (List RunConfigTask) :=
  if (compileErrs (compileResults uuidf rm c cp vars branch tag ref)).isEmpty then
    .ok ((compileResults uuidf rm c cp vars branch tag ref).filterMap (fun r => r.toOption))
  else
    .error (compileErrs (compileResults uuidf rm c cp vars branch tag ref))

/-- Modelled from the spec: `GenRunConfig` of the `runconfig` package, whose
implementation file is missing from the snapshot (only its tests are
present).  Looks up the pipeline by name (failing with `pipeline not
found`), compiles every element (aggregating element errors), computes task
levels, runs the validator and surfaces its multi-error report if
non-empty, and emits the run config. -/
def GenRunConfig (uuidf : String → String) (rm : String → String → Bool) (c : Config)
    (pipelineName : String) (env vars : List (String × String))
    (branch tag ref : String) : Except (List String) RunConfig :=
  match c.Pipelines.find? (fun p => p.Name == pipelineName) with
  | none => .error ["pipeline not found"]
  | some cp =>
    match genRunConfigTasks uuidf rm c cp vars branch tag ref with
    | .error errs => .error errs
    | .ok tasks =>
      match GenTasksLevels { Name := cp.Name, Environment := env, Tasks := tasks } with
      | .error e => .error [e]
      | .ok rc1 =>
        match CheckRunConfig rc1 with
        | [] => .ok rc1
        | cerrs => .error cerrs

/-- Projection of a task forgetting its level, used to state that the level
assignment touches no other field. -/
def eraseLevel (t : RunConfigTask) : RunConfigTask :=
  { t with Level := 0 }

/-- The dependency graph of a task map is internally closed: every depend
edge's target ID is the ID of some task of the map. -/
def WellFormed (tasks : List RunConfigTask) : Prop :=
  ∀ t ∈ tasks, ∀ d ∈ t.Depends, d.TaskID ∈ tasks.map (fun t => t.ID)

instance : DecidablePred WellFormed := fun tasks => by
  unfold WellFormed; infer_instance

/-- Some node lies on a dependency cycle. -/
def HasCycle (tasks : List RunConfigTask) : Prop :=
  ∃ a, OnCycle tasks a

/-! ## Verification-side notions about the dependency graph -/

/-- The IDs of the task map. -/
def taskIDs (tasks : List RunConfigTask) : List String :=
  tasks.map (fun t => t.ID)

/-- One depends-edge: `a`'s task directly depends on the ID `b`. -/
def edge (tasks : List RunConfigTask) (a b : String) : Prop :=
  b ∈ succs tasks a

/-- Every walk of depends-edges starting at `a` takes at most `m` steps. -/
def ChainBound (tasks : List RunConfigTask) (a : String) (m : Nat) : Prop :=
  ∀ l, List.Chain' (edge tasks) (a :: l) → l.length ≤ m

/-- Fuel-bounded height of a node: `0` at fuel `0`, else one more than the
maximum height of its parents (`0` when it has none).  At fuel at least the
length of the longest walk from the node, this is the node's true height. -/
def heightF (tasks : List RunConfigTask) : Nat → String → Int
  | 0, _ => 0
  | fuel+1, a => 1 + listMax ((succs tasks a).map (heightF tasks fuel))

/-- The height of a node of an acyclic graph: the length of the longest
walk of depends-edges out of it. -/
def trueHeight (tasks : List RunConfigTask) (a : String) : Int :=
  heightF tasks tasks.length a

/-- Executable acyclicity test: no node of the map closes a walk of at most
`|tasks|` edges onto itself.  For internally closed graphs this is
equivalent to `Acyclic` (a shortest closed walk repeats no intermediate
node, hence takes at most `|tasks|` edges). -/
def AcyclicB (tasks : List RunConfigTask) : Bool :=
  (taskIDs tasks).all (fun a =>
    (List.range tasks.length).all (fun k => !(existsPathLen tasks (k+1) a a)))

/-! ## Concrete fixtures from the test file -/

/-- The two-task cycle `1 -> 2 -> 1` of the tests. -/
def gCycle2 : List RunConfigTask :=
  [{ ID := "1", Name := "task1", Depends := [{ TaskID := "2" }] },
   { ID := "2", Name := "task2", Depends := [{ TaskID := "1" }] }]

/-- The partial cycle `1 -> 2 -> 3 -> 2` of the tests (task 1 is not on the
cycle). -/
def gPartial : List RunConfigTask :=
  [{ ID := "1", Name := "task1", Depends := [{ TaskID := "2" }] },
   { ID := "2", Name := "task2", Depends := [{ TaskID := "3" }] },
   { ID := "3", Name := "task3", Depends := [{ TaskID := "2" }] }]

/-- The linear two-task graph of the tests: `2` depends on `1`. -/
def gLinear : List RunConfigTask :=
  [{ ID := "1", Name := "task1" },
   { ID := "2", Name := "task2", Depends := [{ TaskID := "1" }] }]

/-- The diamond graph of the spec's scenario 6: `1 -> {2, 3}`, `2 -> 4`,
`3 -> 5`. -/
def gDiamond : List RunConfigTask :=
  [{ ID := "1", Name := "task1",
     Depends := [{ TaskID := "2" }, { TaskID := "3" }] },
   { ID := "2", Name := "task2", Depends := [{ TaskID := "4" }] },
   { ID := "3", Name := "task3", Depends := [{ TaskID := "5" }] },
   { ID := "4", Name := "task4" },
   { ID := "5", Name := "task5" }]

/-- The linear two-task graph with the levels `GenTasksLevels` assigns. -/
def gLinearLeveled : List RunConfigTask :=
  [{ ID := "1", Name := "task1", Level := 0 },
   { ID := "2", Name := "task2", Level := 1, Depends := [{ TaskID := "1" }] }]

/-- The element environment used throughout `TestGenRunConfig`. -/
def testEnvMap : List (String × EnvVar) :=
  [("ENV01", { etype := .string, Value := "ENV01" }),
   ("ENVFROMVARIABLE01", { etype := .fromVariable, Value := "variable01" })]

/-- The `when` predicate of the test element. -/
def testWhen : When :=
  { Branch := some { Include := [{ Match := "master" }] },
    Tag := some { Include := [{ Match := "v1.x" }, { Match := "v2.x" }] },
    Ref := some { Include := [{ Match := "master" }],
                  Exclude := [{ Match := "branch01", ctype := .regExp },
                              { Match := "branch02" }] } }

/-- The single container of the test runtime. -/
def testContainer : CContainer :=
  { Image := "image01", Environment := testEnvMap, User := "" }

/-- The runtime template of the test config. -/
def testRuntime : CRuntime :=
  { Name := "runtime01", rtype := "pod", Arch := "", Containers := [testContainer] }

/-- The task template of the test config. -/
def testTask : CTask :=
  { Name := "task01", Runtime := "runtime01", Environment := testEnvMap,
    WorkingDir := "", Shell := "", User := "",
    Steps := [.run "command01" "command01" [],
              .run "name different than command" "command02" [],
              .run "command03" "command03" testEnvMap] }

/-- The single element of the test pipeline. -/
def testElement : Element :=
  { Name := "element01", Task := "task01", Depends := [],
    IgnoreFailure := false, Approval := false, When := some testWhen }

/-- The input config of `TestGenRunConfig`. -/
def testConfig : Config :=
  { Runtimes := [testRuntime],
    Tasks := [testTask],
    Pipelines := [{ Name := "pipeline01", Elements := [testElement] }] }

/-- The pseudo-UUID generator injected by the tests, keyed by name. -/
def testUUID (name : String) : String := "uuid-" ++ name

/-- A trivial stand-in for the injected regular-expression matcher (the
`TestGenRunConfig` vector never reaches a regexp evaluation). -/
def testRM (_pattern _value : String) : Bool := false

/-- The resolved environment expected throughout the test output. -/
def testResolvedEnv : List (String × String) :=
  [("ENV01", "ENV01"), ("ENVFROMVARIABLE01", "VARVALUE01")]

/-- The expected output task of `TestGenRunConfig`. -/
def testExpectedTask : RunConfigTask :=
  { ID := testUUID "element01", Name := "element01", Level := 0, Depends := [],
    Runtime := some { rtype := "pod", Arch := "",
                      Containers := [{ Image := "image01",
                                       Environment := testResolvedEnv, User := "" }] },
    Environment := testResolvedEnv,
    Steps := [.run "command01" "command01" [],
              .run "name different than command" "command02" [],
              .run "command03" "command03" testResolvedEnv],
    Skip := true, IgnoreFailure := false, NeedsApproval := false }

/-- The expected output of `TestGenRunConfig`. -/
def testExpectedOut : RunConfig :=
  { Name := "pipeline01",
    Environment := [("ENV01", "ENVVALUE01")],
    Tasks := [testExpectedTask] }

/-! # Theorems -/

/-! ## Walks: correspondence with `existsPathLen`, pigeonhole, shortening -/

theorem acyclic_iff_not_hasCycle (tasks : List RunConfigTask) :
    Acyclic tasks ↔ ¬HasCycle tasks := by
  unfold Acyclic HasCycle OnCycle
  constructor
  · rintro h ⟨a, k, hk⟩
    rw [h k a] at hk
    exact Bool.false_ne_true hk
  · intro h k a
    cases hb : existsPathLen tasks (k+1) a a with
    | false => rfl
    | true => exact absurd ⟨a, k, hb⟩ h

theorem existsPathLen_iff (tasks : List RunConfigTask) :
    ∀ (k : Nat) (a b : String), existsPathLen tasks k a b = true ↔
      ∃ l, List.Chain' (edge tasks) (a :: l) ∧ l.length = k ∧ (a :: l).getLast? = some b := by
  intro k
  induction k with
  | zero =>
    intro a b
    simp only [existsPathLen, beq_iff_eq]
    constructor
    · rintro rfl
      exact ⟨[], List.chain'_singleton a, rfl, rfl⟩
    · rintro ⟨l, _, hl, hlast⟩
      have hnil : l = [] := List.length_eq_zero.mp hl
      subst hnil
      simpa using hlast
  | succ k ih =>
    intro a b
    simp only [existsPathLen, List.any_eq_true]
    constructor
    · rintro ⟨c, hc, hp⟩
      obtain ⟨l, hch, hlen, hlast⟩ := (ih c b).mp hp
      refine ⟨c :: l, List.chain'_cons.mpr ⟨hc, hch⟩, by simp [hlen], ?_⟩
      rwa [List.getLast?_cons_cons]
    · rintro ⟨l, hch, hlen, hlast⟩
      cases l with
      | nil => simp at hlen
      | cons c l₂ =>
        have h2 := List.chain'_cons.mp hch
        refine ⟨c, h2.1, (ih c b).mpr ⟨l₂, h2.2, by simpa using hlen, ?_⟩⟩
        rwa [List.getLast?_cons_cons] at hlast

theorem mem_taskIDs_of_succs_ne_nil {tasks : List RunConfigTask} {a : String}
    (h : succs tasks a ≠ []) : a ∈ taskIDs tasks := by
  unfold succs at h
  cases hf : findTask tasks a with
  | none => rw [hf] at h; exact absurd rfl h
  | some t =>
    unfold findTask at hf
    have hmem := List.mem_of_find?_eq_some hf
    have hid := List.find?_some hf
    exact List.mem_map.mpr ⟨t, hmem, by simpa using hid⟩

theorem edge_src_mem {tasks : List RunConfigTask} {a b : String} (h : edge tasks a b) :
    a ∈ taskIDs tasks := by
  have h' : b ∈ succs tasks a := h
  exact mem_taskIDs_of_succs_ne_nil (fun hnil => by rw [hnil] at h'; simp at h')

theorem edge_tgt_mem {tasks : List RunConfigTask} (hWF : WellFormed tasks) {a b : String}
    (h : edge tasks a b) : b ∈ taskIDs tasks := by
  have h' : b ∈ succs tasks a := h
  unfold succs at h'
  cases hf : findTask tasks a with
  | none => rw [hf] at h'; simp at h'
  | some t =>
    rw [hf] at h'
    obtain ⟨d, hd, hdb⟩ := List.mem_map.mp h'
    unfold findTask at hf
    have hmem : t ∈ tasks := List.mem_of_find?_eq_some hf
    have hwf := hWF t hmem d hd
    rw [hdb] at hwf
    exact hwf

theorem walk_mem_taskIDs {tasks : List RunConfigTask} (hWF : WellFormed tasks) :
    ∀ m : List String, List.Chain' (edge tasks) m → 2 ≤ m.length →
      ∀ x ∈ m, x ∈ taskIDs tasks := by
  intro m
  induction m with
  | nil => intro _ h; simp at h
  | cons y rest ih =>
    intro hch hlen x hx
    cases rest with
    | nil => simp at hlen
    | cons z rest2 =>
      have h2 := List.chain'_cons.mp hch
      rcases List.mem_cons.mp hx with rfl | hx2
      · exact edge_src_mem h2.1
      · cases rest2 with
        | nil =>
          have hz : x = z := by simpa using hx2
          subst hz
          exact edge_tgt_mem hWF h2.1
        | cons w rest3 =>
          exact ih h2.2 (by simp) x hx2

theorem exists_dup_split {α : Type} [DecidableEq α] :
    ∀ {l : List α}, ¬l.Nodup →
      ∃ (x : α) (l₁ l₂ l₃ : List α), l = l₁ ++ x :: l₂ ++ x :: l₃ := by
  intro l
  induction l with
  | nil => intro h; exact absurd List.nodup_nil h
  | cons y t ih =>
    intro h
    by_cases hy : y ∈ t
    · obtain ⟨s, u, rfl⟩ := List.append_of_mem hy
      exact ⟨y, [], s, u, by simp⟩
    · have ht : ¬t.Nodup := fun hnd => h (List.nodup_cons.mpr ⟨hy, hnd⟩)
      obtain ⟨x, l₁, l₂, l₃, rfl⟩ := ih ht
      exact ⟨x, y :: l₁, l₂, l₃, by simp⟩

theorem chain'_middle_cycle {α : Type} {R : α → α → Prop} {l₁ l₂ l₃ : List α} {x : α}
    (h : List.Chain' R (l₁ ++ x :: l₂ ++ x :: l₃)) :
    List.Chain' R (x :: (l₂ ++ [x])) := by
  have e : l₁ ++ x :: l₂ ++ x :: l₃ = l₁ ++ ((x :: l₂) ++ (x :: l₃)) := by simp
  rw [e] at h
  obtain ⟨_, h23, _⟩ := List.chain'_append.mp h
  obtain ⟨hx2, _, hlink2⟩ := List.chain'_append.mp h23
  show List.Chain' R ((x :: l₂) ++ [x])
  apply List.chain'_append.mpr
  refine ⟨hx2, List.chain'_singleton x, ?_⟩
  intro a ha b hb
  have hbx : b = x := by simpa using hb.symm
  subst hbx
  exact hlink2 a ha b (by simp)

theorem chain'_splice {α : Type} {R : α → α → Prop} {l₁ l₂ l₃ : List α} {x : α}
    (h : List.Chain' R (l₁ ++ x :: l₂ ++ x :: l₃)) :
    List.Chain' R (l₁ ++ x :: l₃) := by
  have e : l₁ ++ x :: l₂ ++ x :: l₃ = l₁ ++ ((x :: l₂) ++ (x :: l₃)) := by simp
  rw [e] at h
  obtain ⟨h1, h23, hlink⟩ := List.chain'_append.mp h
  obtain ⟨_, hx3, _⟩ := List.chain'_append.mp h23
  apply List.chain'_append.mpr
  refine ⟨h1, hx3, ?_⟩
  intro a ha b hb
  have hbx : b = x := by simpa using hb.symm
  subst hbx
  exact hlink a ha b (by simp)

theorem hasCycle_of_dup_walk {tasks : List RunConfigTask} {m : List String}
    (hch : List.Chain' (edge tasks) m) (hnd : ¬m.Nodup) : HasCycle tasks := by
  obtain ⟨x, l₁, l₂, l₃, rfl⟩ := exists_dup_split hnd
  have hc := chain'_middle_cycle hch
  refine ⟨x, l₂.length, ?_⟩
  apply (existsPathLen_iff tasks (l₂.length + 1) x x).mpr
  refine ⟨l₂ ++ [x], hc, by simp, ?_⟩
  show (x :: (l₂ ++ [x])).getLast? = some x
  rw [show x :: (l₂ ++ [x]) = (x :: l₂) ++ [x] by simp, List.getLast?_concat]

theorem chainBound_of_acyclic {tasks : List RunConfigTask} (hA : Acyclic tasks)
    (hWF : WellFormed tasks) {a : String} :
    ChainBound tasks a (tasks.length - 1) := by
  intro l hch
  cases l with
  | nil => simp
  | cons c l₂ =>
    by_cases hnd : (a :: c :: l₂).Nodup
    · have hsub : (a :: c :: l₂) ⊆ taskIDs tasks := fun x hx =>
        walk_mem_taskIDs hWF _ hch (by simp) x hx
      have hle := (List.subperm_of_subset hnd hsub).length_le
      have hlen : (taskIDs tasks).length = tasks.length := List.length_map _ _
      simp only [List.length_cons] at hle ⊢
      omega
    · exact absurd (hasCycle_of_dup_walk hch hnd) ((acyclic_iff_not_hasCycle tasks).mp hA)

theorem cycle_shorten {tasks : List RunConfigTask} (hWF : WellFormed tasks) :
    ∀ k {a}, existsPathLen tasks (k+1) a a = true →
      ∃ j, j < tasks.length ∧ existsPathLen tasks (j+1) a a = true := by
  intro k
  induction k using Nat.strong_induction_on with
  | _ k ih =>
    intro a h
    by_cases hk : k < tasks.length
    · exact ⟨k, hk, h⟩
    · obtain ⟨l, hch, hlen, hlast⟩ := (existsPathLen_iff tasks (k+1) a a).mp h
      have hsub : l ⊆ taskIDs tasks := by
        intro x hx
        refine walk_mem_taskIDs hWF _ hch ?_ x (List.mem_cons_of_mem a hx)
        cases l with
        | nil => simp at hlen
        | cons c l₂ => simp
      have hnd : ¬l.Nodup := by
        intro hnd
        have hle := (List.subperm_of_subset hnd hsub).length_le
        have hlen2 : (taskIDs tasks).length = tasks.length := List.length_map _ _
        omega
      obtain ⟨x, l₁, l₂, l₃, rfl⟩ := exists_dup_split hnd
      have hch' : List.Chain' (edge tasks) ((a :: l₁) ++ x :: l₂ ++ x :: l₃) := by
        simpa using hch
      have hsp : List.Chain' (edge tasks) (a :: (l₁ ++ x :: l₃)) := by
        simpa using chain'_splice hch'
      have e1 : a :: (l₁ ++ x :: l₂ ++ x :: l₃) = (a :: (l₁ ++ x :: l₂)) ++ (x :: l₃) := by
        simp
      rw [e1, List.getLast?_append_of_ne_nil _ (by simp)] at hlast
      have hlast' : (a :: (l₁ ++ x :: l₃)).getLast? = some a := by
        rw [show a :: (l₁ ++ x :: l₃) = (a :: l₁) ++ (x :: l₃) by simp,
          List.getLast?_append_of_ne_nil _ (by simp)]
        exact hlast
      have hlt : l₁.length + l₃.length < k := by
        simp only [List.length_append, List.length_cons] at hlen
        omega
      have hpath := (existsPathLen_iff tasks (l₁.length + l₃.length + 1) a a).mpr
        ⟨l₁ ++ x :: l₃, hsp, by simp; omega, hlast'⟩
      exact ih (l₁.length + l₃.length) hlt hpath

theorem onCycle_iff_reachable_self {tasks : List RunConfigTask} (hWF : WellFormed tasks)
    (a : String) : OnCycle tasks a ↔ reachableB tasks a a = true := by
  constructor
  · rintro ⟨k, hk⟩
    obtain ⟨j, hj, hp⟩ := cycle_shorten hWF k hk
    exact List.any_eq_true.mpr ⟨j, List.mem_range.mpr hj, hp⟩
  · intro h
    obtain ⟨j, _, hp⟩ := List.any_eq_true.mp h
    exact ⟨j, hp⟩

theorem acyclic_of_acyclicB {tasks : List RunConfigTask} (hWF : WellFormed tasks)
    (h : AcyclicB tasks = true) : Acyclic tasks := by
  intro k a
  cases hb : existsPathLen tasks (k+1) a a with
  | false => rfl
  | true =>
    obtain ⟨l, hch, hlen, _⟩ := (existsPathLen_iff tasks (k+1) a a).mp hb
    have ha : a ∈ taskIDs tasks := by
      refine walk_mem_taskIDs hWF _ hch ?_ a (List.mem_cons_self a l)
      cases l with
      | nil => simp at hlen
      | cons c l₂ => simp
    obtain ⟨j, hj, hp⟩ := cycle_shorten hWF k hb
    have h1 := List.all_eq_true.mp h a ha
    have h2 := List.all_eq_true.mp h1 j (List.mem_range.mpr hj)
    rw [hp] at h2
    simp at h2

/-! Sanity checks against the `TestGenTasksLevels` vectors of the test file. -/

theorem genTasksLevels_vec_single :
    GenTasksLevels { Tasks := [{ ID := "1" }] } =
      .ok { Tasks := [{ ID := "1", Level := 0 }] } := by rfl

theorem genTasksLevels_vec_dep :
    GenTasksLevels { Tasks := [{ ID := "1" },
        { ID := "2", Depends := [{ TaskID := "1" }] }] } =
      .ok { Tasks := [{ ID := "1", Level := 0 },
        { ID := "2", Level := 1, Depends := [{ TaskID := "1" }] }] } := by rfl

theorem genTasksLevels_vec_cycle2 :
    GenTasksLevels { Tasks := [{ ID := "1", Depends := [{ TaskID := "2" }] },
        { ID := "2", Depends := [{ TaskID := "1" }] }] } =
      .error "circular dependency detected" := by rfl

theorem genTasksLevels_vec_cycle3partial :
    GenTasksLevels { Tasks := [{ ID := "1", Depends := [{ TaskID := "2" }] },
        { ID := "2", Depends := [{ TaskID := "3" }] },
        { ID := "3", Depends := [{ TaskID := "2" }] }] } =
      .error "circular dependency detected" := by rfl

/-! Sanity checks against the `TestGetAllParents` vectors of the test
file (sets compared without order in the test; the model returns them in
task-map order). -/

theorem getAllParents_vec_single :
    GetAllParents [{ ID := "1" }] { ID := "1" } = [] := by rfl

theorem getAllParents_vec_selfdep :
    GetAllParents [{ ID := "1", Depends := [{ TaskID := "1" }] }]
      { ID := "1", Depends := [{ TaskID := "1" }] } = ["1"] := by rfl

theorem getAllParents_vec_linear :
    GetAllParents gLinear { ID := "2", Name := "task2", Depends := [{ TaskID := "1" }] } =
      ["1"] := by rfl

theorem getAllParents_vec_cycle2 :
    (GetAllParents gCycle2 { ID := "1", Name := "task1", Depends := [{ TaskID := "2" }] } =
        ["1", "2"]) ∧
      GetAllParents gCycle2 { ID := "2", Name := "task2", Depends := [{ TaskID := "1" }] } =
        ["1", "2"] := by constructor <;> rfl

theorem getAllParents_vec_partial :
    (GetAllParents gPartial { ID := "1", Name := "task1", Depends := [{ TaskID := "2" }] } =
        ["2", "3"]) ∧
      (GetAllParents gPartial { ID := "2", Name := "task2", Depends := [{ TaskID := "3" }] } =
        ["2", "3"]) ∧
      GetAllParents gPartial { ID := "3", Name := "task3", Depends := [{ TaskID := "2" }] } =
        ["2", "3"] := by refine ⟨by rfl, by rfl, by rfl⟩

/-! Sanity checks against the `TestCheckRunConfig` vectors of the test file. -/

theorem checkRunConfig_vec_linear :
    CheckRunConfig { Tasks := gLinear } = [] := by rfl

theorem checkRunConfig_vec_cycle2 :
    CheckRunConfig { Tasks := gCycle2 } =
      ["circular dependency between task \"task1\" and tasks \"task2\"",
       "circular dependency between task \"task2\" and tasks \"task1\""] := by rfl

theorem checkRunConfig_vec_cycle3 :
    CheckRunConfig { Tasks :=
        [{ ID := "1", Name := "task1", Depends := [{ TaskID := "2" }] },
         { ID := "2", Name := "task2", Depends := [{ TaskID := "3" }] },
         { ID := "3", Name := "task3", Depends := [{ TaskID := "1" }] }] } =
      ["circular dependency between task \"task1\" and tasks \"task3\"",
       "circular dependency between task \"task2\" and tasks \"task1\"",
       "circular dependency between task \"task3\" and tasks \"task2\""] := by rfl

theorem checkRunConfig_vec_partial :
    CheckRunConfig { Tasks := gPartial } =
      ["circular dependency between task \"task2\" and tasks \"task3\"",
       "circular dependency between task \"task3\" and tasks \"task2\""] := by rfl

/-! Sanity check against the `TestGenRunConfig` vector of the test file. -/

theorem genRunConfig_vec :
    GenRunConfig testUUID testRM testConfig "pipeline01"
        [("ENV01", "ENVVALUE01")] [("variable01", "VARVALUE01")] "" "" "" =
      .ok testExpectedOut := by rfl

/-! ## Heights of acyclic graphs -/

theorem listMax_neg_one_le {ls : List Int} (h : ∀ x ∈ ls, 0 ≤ x) : -1 ≤ listMax ls := by
  cases ls with
  | nil => simp [listMax]
  | cons x xs =>
    have hx := h x (List.mem_cons_self x xs)
    unfold listMax
    exact le_trans (by omega) (le_max_left x (listMax xs))

theorem le_listMax_of_mem {ls : List Int} {x : Int} (h : x ∈ ls) : x ≤ listMax ls := by
  induction ls with
  | nil => simp at h
  | cons y ys ih =>
    unfold listMax
    rcases List.mem_cons.mp h with rfl | h2
    · exact le_max_left _ _
    · exact le_trans (ih h2) (le_max_right _ _)

theorem heightF_nonneg (tasks : List RunConfigTask) :
    ∀ (fuel : Nat) (a : String), 0 ≤ heightF tasks fuel a := by
  intro fuel
  induction fuel with
  | zero => intro a; simp [heightF]
  | succ f ih =>
    intro a
    have hm : -1 ≤ listMax ((succs tasks a).map (heightF tasks f)) := by
      apply listMax_neg_one_le
      intro x hx
      obtain ⟨b, _, rfl⟩ := List.mem_map.mp hx
      exact ih b
    simp only [heightF]
    omega

theorem chainBound_zero_succs_nil {tasks : List RunConfigTask} {a : String}
    (h : ChainBound tasks a 0) : succs tasks a = [] := by
  cases hs : succs tasks a with
  | nil => rfl
  | cons b bs =>
    have hedge : edge tasks a b := by show b ∈ succs tasks a; rw [hs]; simp
    have hb := h [b] (List.chain'_cons.mpr ⟨hedge, List.chain'_singleton b⟩)
    simp at hb

theorem chainBound_of_succs_nil {tasks : List RunConfigTask} {a : String}
    (h : succs tasks a = []) : ChainBound tasks a 0 := by
  intro l hch
  cases l with
  | nil => simp
  | cons c l₂ =>
    have hedge : edge tasks a c := (List.chain'_cons.mp hch).1
    have : c ∈ succs tasks a := hedge
    rw [h] at this
    simp at this

theorem chainBound_succ {tasks : List RunConfigTask} {a b : String} {m : Nat}
    (hedge : edge tasks a b) (h : ChainBound tasks a (m+1)) : ChainBound tasks b m := by
  intro l hch
  have hb := h (b :: l) (List.chain'_cons.mpr ⟨hedge, hch⟩)
  simpa using hb

theorem heightF_fuel_eq {tasks : List RunConfigTask} :
    ∀ (m : Nat) (a : String), ChainBound tasks a m →
      ∀ f₁ f₂, m ≤ f₁ → m ≤ f₂ → heightF tasks f₁ a = heightF tasks f₂ a := by
  intro m
  induction m with
  | zero =>
    intro a hcb f₁ f₂ _ _
    have hs := chainBound_zero_succs_nil hcb
    have hval : ∀ f, heightF tasks f a = 0 := by
      intro f
      cases f with
      | zero => simp [heightF]
      | succ g => simp [heightF, hs, listMax]
    rw [hval f₁, hval f₂]
  | succ m ih =>
    intro a hcb f₁ f₂ h1 h2
    obtain ⟨g₁, rfl⟩ : ∃ g, f₁ = g + 1 := ⟨f₁ - 1, by omega⟩
    obtain ⟨g₂, rfl⟩ : ∃ g, f₂ = g + 1 := ⟨f₂ - 1, by omega⟩
    simp only [heightF]
    have hmap : (succs tasks a).map (heightF tasks g₁) =
        (succs tasks a).map (heightF tasks g₂) := by
      apply List.map_congr_left
      intro b hb
      have hedge : edge tasks a b := hb
      have hcbb := chainBound_succ hedge hcb
      exact ih b hcbb g₁ g₂ (by omega) (by omega)
    rw [hmap]

theorem trueHeight_eq {tasks : List RunConfigTask} {a : String} {m : Nat}
    (hcb : ChainBound tasks a m) (hm : m < tasks.length) :
    trueHeight tasks a = 1 + listMax ((succs tasks a).map (trueHeight tasks)) := by
  have hmap : (succs tasks a).map (heightF tasks (tasks.length - 1)) =
      (succs tasks a).map (trueHeight tasks) := by
    apply List.map_congr_left
    intro b hb
    have hedge : edge tasks a b := hb
    cases m with
    | zero =>
      rw [chainBound_zero_succs_nil hcb] at hb
      simp at hb
    | succ m2 =>
      have hcbb := chainBound_succ hedge hcb
      exact heightF_fuel_eq m2 b hcbb (tasks.length - 1) tasks.length (by omega) (by omega)
  have hstep : trueHeight tasks a =
      1 + listMax ((succs tasks a).map (heightF tasks (tasks.length - 1))) := by
    unfold trueHeight
    obtain ⟨g, hg⟩ : ∃ g, tasks.length = g + 1 := ⟨tasks.length - 1, by omega⟩
    rw [hg]
    simp only [heightF]
    rw [Nat.add_sub_cancel]
  rw [hstep, hmap]

/-! ## Structure preservation through the level passes -/

theorem levelsStep_ID (ts : List RunConfigTask) (t : RunConfigTask) :
    (levelsStep ts t).ID = t.ID := by
  unfold levelsStep
  split <;> rfl

theorem levelsStep_Depends (ts : List RunConfigTask) (t : RunConfigTask) :
    (levelsStep ts t).Depends = t.Depends := by
  unfold levelsStep
  split <;> rfl

theorem levelsStep_eraseLevel (ts : List RunConfigTask) (t : RunConfigTask) :
    eraseLevel (levelsStep ts t) = eraseLevel t := by
  unfold levelsStep eraseLevel
  split <;> rfl

theorem findTask_map_of_ID_preserved (f : RunConfigTask → RunConfigTask)
    (hf : ∀ t, (f t).ID = t.ID) (ts : List RunConfigTask) (a : String) :
    findTask (ts.map f) a = (findTask ts a).map f := by
  unfold findTask
  rw [List.find?_map]
  have he : ((fun t => t.ID == a) ∘ f) = (fun t : RunConfigTask => t.ID == a) := by
    funext t
    simp [Function.comp, hf]
  rw [he]

theorem succs_map_of_preserved (f : RunConfigTask → RunConfigTask)
    (hfID : ∀ t, (f t).ID = t.ID) (hfD : ∀ t, (f t).Depends = t.Depends)
    (ts : List RunConfigTask) (a : String) :
    succs (ts.map f) a = succs ts a := by
  unfold succs
  rw [findTask_map_of_ID_preserved f hfID]
  cases findTask ts a with
  | none => rfl
  | some t => simp [hfD]

theorem succs_levelsPass (ts : List RunConfigTask) (a : String) :
    succs (levelsPass ts) a = succs ts a := by
  unfold levelsPass
  exact succs_map_of_preserved _ (levelsStep_ID ts) (levelsStep_Depends ts) ts a

theorem succs_initLevels (ts : List RunConfigTask) (a : String) :
    succs (initLevels ts) a = succs ts a := by
  unfold initLevels
  exact succs_map_of_preserved (fun t => { t with Level := -1 })
    (fun _ => rfl) (fun _ => rfl) ts a

theorem succs_iterate (ts : List RunConfigTask) (k : Nat) (a : String) :
    succs (levelsPass^[k] (initLevels ts)) a = succs ts a := by
  induction k with
  | zero => rw [Function.iterate_zero_apply]; exact succs_initLevels ts a
  | succ k ih =>
    rw [Function.iterate_succ_apply', succs_levelsPass]
    exact ih

theorem taskIDs_map_of_ID_preserved (f : RunConfigTask → RunConfigTask)
    (hf : ∀ t, (f t).ID = t.ID) (ts : List RunConfigTask) :
    taskIDs (ts.map f) = taskIDs ts := by
  unfold taskIDs
  rw [List.map_map]
  exact List.map_congr_left (fun t _ => hf t)

theorem taskIDs_levelsPass (ts : List RunConfigTask) :
    taskIDs (levelsPass ts) = taskIDs ts := by
  unfold levelsPass
  exact taskIDs_map_of_ID_preserved _ (levelsStep_ID ts) ts

theorem taskIDs_initLevels (ts : List RunConfigTask) :
    taskIDs (initLevels ts) = taskIDs ts := by
  unfold initLevels
  exact taskIDs_map_of_ID_preserved (fun t => { t with Level := -1 }) (fun _ => rfl) ts

theorem taskIDs_iterate (ts : List RunConfigTask) (k : Nat) :
    taskIDs (levelsPass^[k] (initLevels ts)) = taskIDs ts := by
  induction k with
  | zero => rw [Function.iterate_zero_apply]; exact taskIDs_initLevels ts
  | succ k ih =>
    rw [Function.iterate_succ_apply', taskIDs_levelsPass]
    exact ih

theorem eraseLevel_levelsPass (ts : List RunConfigTask) :
    (levelsPass ts).map eraseLevel = ts.map eraseLevel := by
  unfold levelsPass
  rw [List.map_map]
  exact List.map_congr_left (fun t _ => levelsStep_eraseLevel ts t)

theorem eraseLevel_initLevels (ts : List RunConfigTask) :
    (initLevels ts).map eraseLevel = ts.map eraseLevel := by
  unfold initLevels
  rw [List.map_map]
  exact List.map_congr_left (fun t _ => rfl)

theorem eraseLevel_iterate (ts : List RunConfigTask) (k : Nat) :
    (levelsPass^[k] (initLevels ts)).map eraseLevel = ts.map eraseLevel := by
  induction k with
  | zero => rw [Function.iterate_zero_apply]; exact eraseLevel_initLevels ts
  | succ k ih =>
    rw [Function.iterate_succ_apply', eraseLevel_levelsPass]
    exact ih

theorem findTask_self {tasks : List RunConfigTask} (hND : (taskIDs tasks).Nodup)
    {t : RunConfigTask} (ht : t ∈ tasks) : findTask tasks t.ID = some t := by
  unfold findTask
  induction tasks with
  | nil => simp at ht
  | cons u rest ih =>
    have hnd : u.ID ∉ taskIDs rest ∧ (taskIDs rest).Nodup := List.nodup_cons.mp hND
    rcases List.mem_cons.mp ht with rfl | h2
    · exact List.find?_cons_of_pos rest (by simp)
    · have hne : (u.ID == t.ID) = false := by
        apply beq_eq_false_iff_ne.mpr
        intro he
        exact hnd.1 (he ▸ List.mem_map.mpr ⟨t, h2, rfl⟩)
      rw [List.find?_cons_of_neg rest (by simp [hne])]
      exact ih hnd.2 h2

theorem findTask_levelsPass (ts : List RunConfigTask) (a : String) :
    findTask (levelsPass ts) a = (findTask ts a).map (levelsStep ts) := by
  unfold levelsPass
  exact findTask_map_of_ID_preserved _ (levelsStep_ID ts) ts a

theorem findTask_initLevels (ts : List RunConfigTask) (a : String) :
    findTask (initLevels ts) a = (findTask ts a).map (fun t => { t with Level := -1 }) := by
  unfold initLevels
  exact findTask_map_of_ID_preserved (fun t => { t with Level := -1 }) (fun _ => rfl) ts a

theorem findTask_isSome_iterate (ts : List RunConfigTask) (k : Nat) (a : String) :
    (findTask (levelsPass^[k] (initLevels ts)) a).isSome = (findTask ts a).isSome := by
  induction k with
  | zero =>
    rw [Function.iterate_zero_apply, findTask_initLevels]
    cases findTask ts a <;> rfl
  | succ k ih =>
    rw [Function.iterate_succ_apply', findTask_levelsPass]
    cases hX : findTask (levelsPass^[k] (initLevels ts)) a with
    | none => rw [hX] at ih; simpa using ih
    | some t => rw [hX] at ih; simpa using ih

theorem levelOf_initLevels (ts : List RunConfigTask) (a : String) :
    levelOf (initLevels ts) a = -1 := by
  unfold levelOf
  rw [findTask_initLevels]
  cases findTask ts a <;> rfl

theorem levelOf_levelsPass (ts : List RunConfigTask) (a : String) {t : RunConfigTask}
    (h : findTask ts a = some t) :
    levelOf (levelsPass ts) a =
      if ((succs ts a).map (levelOf ts)).all (fun l => decide (0 ≤ l))
      then 1 + listMax ((succs ts a).map (levelOf ts))
      else t.Level := by
  have hsucc : (succs ts a).map (levelOf ts) = t.Depends.map (fun d => levelOf ts d.TaskID) := by
    unfold succs
    rw [h, List.map_map]
    simp [Function.comp]
  rw [hsucc]
  have hfind : findTask (levelsPass ts) a = some (levelsStep ts t) := by
    rw [findTask_levelsPass, h]
    rfl
  have hlev : levelOf (levelsPass ts) a = (levelsStep ts t).Level := by
    unfold levelOf
    rw [hfind]
  rw [hlev]
  unfold levelsStep
  split <;> rfl

/-! ## Convergence of the level iteration on acyclic graphs -/

theorem levelOf_converges {ts : List RunConfigTask} (hA : Acyclic ts) (hWF : WellFormed ts)
    (hND : (taskIDs ts).Nodup) :
    ∀ m, ∀ a ∈ taskIDs ts, ChainBound ts a m → m < ts.length →
      ∀ k, m < k → levelOf (levelsPass^[k] (initLevels ts)) a = trueHeight ts a := by
  intro m
  induction m using Nat.strong_induction_on with
  | _ m ih =>
    intro a ha hcb hm k hk
    obtain ⟨k2, rfl⟩ : ∃ k2, k = k2 + 1 := ⟨k - 1, by omega⟩
    have hsome0 : (findTask ts a).isSome := by
      obtain ⟨t, ht, hid⟩ := List.mem_map.mp ha
      unfold findTask
      exact List.find?_isSome.mpr ⟨t, ht, by simp [hid]⟩
    have hsome : (findTask (levelsPass^[k2] (initLevels ts)) a).isSome := by
      rw [findTask_isSome_iterate]
      exact hsome0
    obtain ⟨t2, ht2⟩ := Option.isSome_iff_exists.mp hsome
    rw [Function.iterate_succ_apply', levelOf_levelsPass _ a ht2, succs_iterate]
    by_cases hS : succs ts a = []
    · rw [hS]
      simp only [List.map_nil, List.all_nil, if_true]
      have h0 : ChainBound ts a 0 := chainBound_of_succs_nil hS
      have hn1 : 0 < ts.length := by
        cases hc : ts with
        | nil => rw [hc] at ha; simp [taskIDs] at ha
        | cons u rest => simp
      rw [trueHeight_eq h0 hn1, hS]
      simp
    · obtain ⟨m2, rfl⟩ : ∃ m2, m = m2 + 1 := by
        cases m with
        | zero => exact absurd (chainBound_zero_succs_nil hcb) hS
        | succ m2 => exact ⟨m2, rfl⟩
      have hmap : (succs ts a).map (levelOf (levelsPass^[k2] (initLevels ts))) =
          (succs ts a).map (trueHeight ts) := by
        apply List.map_congr_left
        intro b2 hb2
        have hedge : edge ts a b2 := hb2
        have hbmem : b2 ∈ taskIDs ts := edge_tgt_mem hWF hedge
        have hcbb := chainBound_succ hedge hcb
        exact ih m2 (by omega) b2 hbmem hcbb (by omega) k2 (by omega)
      rw [hmap]
      have hall : ((succs ts a).map (trueHeight ts)).all (fun l => decide (0 ≤ l)) = true := by
        apply List.all_eq_true.mpr
        intro x hx
        obtain ⟨b2, _, rfl⟩ := List.mem_map.mp hx
        simpa using heightF_nonneg ts ts.length b2
      rw [if_pos hall]
      exact (trueHeight_eq hcb hm).symm

theorem genTasksLevels_final_levels {ts : List RunConfigTask} (hA : Acyclic ts)
    (hWF : WellFormed ts) (hND : (taskIDs ts).Nodup) :
    ∀ t ∈ levelsPass^[ts.length + 1] (initLevels ts), t.Level = trueHeight ts t.ID := by
  intro t ht
  have hIDs : taskIDs (levelsPass^[ts.length + 1] (initLevels ts)) = taskIDs ts :=
    taskIDs_iterate ts _
  have hmem : t.ID ∈ taskIDs ts := by
    rw [← hIDs]
    exact List.mem_map.mpr ⟨t, ht, rfl⟩
  have hNDf : (taskIDs (levelsPass^[ts.length + 1] (initLevels ts))).Nodup := by
    rw [hIDs]
    exact hND
  have hfind : findTask (levelsPass^[ts.length + 1] (initLevels ts)) t.ID = some t :=
    findTask_self hNDf ht
  have hlev : levelOf (levelsPass^[ts.length + 1] (initLevels ts)) t.ID = t.Level := by
    unfold levelOf
    rw [hfind]
  have hn1 : 0 < ts.length := by
    cases hc : ts with
    | nil => rw [hc] at hmem; simp [taskIDs] at hmem
    | cons u rest => simp
  rw [← hlev]
  exact levelOf_converges hA hWF hND (ts.length - 1) t.ID hmem
    (chainBound_of_acyclic hA hWF) (by omega) (ts.length + 1) (by omega)

theorem genTasksLevels_ok_of_acyclic {rc : RunConfig} (hA : Acyclic rc.Tasks)
    (hWF : WellFormed rc.Tasks) (hND : (taskIDs rc.Tasks).Nodup) :
    GenTasksLevels rc = Except.ok
      { rc with Tasks := levelsPass^[rc.Tasks.length + 1] (initLevels rc.Tasks) } := by
  have hall : (levelsPass^[rc.Tasks.length + 1] (initLevels rc.Tasks)).all
      (fun t => decide (0 ≤ t.Level)) = true := by
    apply List.all_eq_true.mpr
    intro t ht
    have hl := genTasksLevels_final_levels hA hWF hND t ht
    have h0 := heightF_nonneg rc.Tasks rc.Tasks.length t.ID
    rw [hl]
    simpa using h0
  unfold GenTasksLevels
  rw [if_pos hall]

/-! ## Divergence of the level iteration on cyclic graphs -/

theorem cycle_next {tasks : List RunConfigTask} {x : String} {l : List String}
    (hch : List.Chain' (edge tasks) (x :: l)) (hlast : (x :: l).getLast? = some x)
    (hne : l ≠ []) :
    ∀ c ∈ x :: l, ∃ c2 ∈ x :: l, edge tasks c c2 := by
  intro c hc
  have hlen2 : 2 ≤ (x :: l).length := by
    cases l with
    | nil => exact absurd rfl hne
    | cons u rest => simp
  obtain ⟨⟨i, hi⟩, hget⟩ := List.mem_iff_get.mp hc
  have hchain := List.chain'_iff_get.mp hch
  by_cases hilast : i < (x :: l).length - 1
  · refine ⟨(x :: l).get ⟨i + 1, by omega⟩, List.get_mem _ _ _, ?_⟩
    rw [← hget]
    exact hchain i hilast
  · have hcx : c = x := by
      have h1 : (x :: l).getLast? = some ((x :: l).getLast (by simp)) :=
        List.getLast?_eq_getLast_of_ne_nil (by simp)
      rw [hlast] at h1
      have h2 : (x :: l).getLast (by simp) = x := by
        injection h1 with h1'
        exact h1'.symm
      have h3 : (x :: l).getLast (by simp) = c := by
        rw [List.getLast_eq_getElem, ← hget, List.get_eq_getElem]
        congr 1
        simp only [List.length_cons] at hi hilast ⊢
        omega
      rw [← h3, h2]
    have h0 := hchain 0 (by simp at hlen2 ⊢; omega)
    refine ⟨(x :: l).get ⟨1, by omega⟩, List.get_mem _ _ _, ?_⟩
    rw [hcx]
    exact h0

theorem genTasksLevels_error_of_cycle {rc : RunConfig} (h : HasCycle rc.Tasks) :
    GenTasksLevels rc = Except.error "circular dependency detected" := by
  obtain ⟨x, k0, hx⟩ := h
  obtain ⟨l, hch, hlen, hlast⟩ := (existsPathLen_iff rc.Tasks (k0+1) x x).mp hx
  have hne : l ≠ [] := by
    intro e
    rw [e] at hlen
    simp at hlen
  have hnext := cycle_next hch hlast hne
  have hinv : ∀ j, ∀ c ∈ x :: l,
      levelOf (levelsPass^[j] (initLevels rc.Tasks)) c = -1 := by
    intro j
    induction j with
    | zero =>
      intro c _
      rw [Function.iterate_zero_apply]
      exact levelOf_initLevels rc.Tasks c
    | succ j ihj =>
      intro c hc
      obtain ⟨c2, hc2, hedge⟩ := hnext c hc
      have hsome0 : (findTask rc.Tasks c).isSome := by
        have h' : c2 ∈ succs rc.Tasks c := hedge
        unfold succs at h'
        cases hf : findTask rc.Tasks c with
        | none => rw [hf] at h'; simp at h'
        | some t => simp
      have hsome : (findTask (levelsPass^[j] (initLevels rc.Tasks)) c).isSome := by
        rw [findTask_isSome_iterate]
        exact hsome0
      obtain ⟨t2, ht2⟩ := Option.isSome_iff_exists.mp hsome
      rw [Function.iterate_succ_apply', levelOf_levelsPass _ c ht2, succs_iterate]
      have hcond : ¬(((succs rc.Tasks c).map
          (levelOf (levelsPass^[j] (initLevels rc.Tasks)))).all
            (fun lv => decide (0 ≤ lv)) = true) := by
        intro hall
        have hm : (-1 : Int) ∈ (succs rc.Tasks c).map
            (levelOf (levelsPass^[j] (initLevels rc.Tasks))) :=
          List.mem_map.mpr ⟨c2, hedge, ihj c2 hc2⟩
        have hbad := List.all_eq_true.mp hall (-1) hm
        simp at hbad
      rw [if_neg hcond]
      have hval : levelOf (levelsPass^[j] (initLevels rc.Tasks)) c = t2.Level := by
        unfold levelOf
        rw [ht2]
      rw [← hval]
      exact ihj c hc
  have hxmem : x ∈ taskIDs rc.Tasks := by
    obtain ⟨c2, _, hedge⟩ := hnext x (List.mem_cons_self x l)
    exact edge_src_mem hedge
  have hsomef : (findTask (levelsPass^[rc.Tasks.length + 1] (initLevels rc.Tasks)) x).isSome := by
    rw [findTask_isSome_iterate]
    obtain ⟨t, ht, hid⟩ := List.mem_map.mp hxmem
    unfold findTask
    exact List.find?_isSome.mpr ⟨t, ht, by simp [hid]⟩
  obtain ⟨tx, htx⟩ := Option.isSome_iff_exists.mp hsomef
  have htxlev : tx.Level = -1 := by
    have hl := hinv (rc.Tasks.length + 1) x (List.mem_cons_self x l)
    unfold levelOf at hl
    rw [htx] at hl
    exact hl
  have htxmem : tx ∈ levelsPass^[rc.Tasks.length + 1] (initLevels rc.Tasks) := by
    unfold findTask at htx
    exact List.mem_of_find?_eq_some htx
  have hnall : ¬((levelsPass^[rc.Tasks.length + 1] (initLevels rc.Tasks)).all
      (fun t => decide (0 ≤ t.Level)) = true) := by
    intro hall
    have hbad := List.all_eq_true.mp hall tx htxmem
    rw [htxlev] at hbad
    simp at hbad
  unfold GenTasksLevels
  rw [if_neg hnall]

/-! ## Claim theorems: GenTasksLevels -/

theorem final_entry_corresp {ts : List RunConfigTask} (k : Nat) {t : RunConfigTask}
    (ht : t ∈ levelsPass^[k] (initLevels ts)) :
    ∃ t0, t0 ∈ ts ∧ t0.ID = t.ID ∧ t0.Name = t.Name ∧ t0.Depends = t.Depends := by
  have hmem : eraseLevel t ∈ (levelsPass^[k] (initLevels ts)).map eraseLevel :=
    List.mem_map.mpr ⟨t, ht, rfl⟩
  rw [eraseLevel_iterate] at hmem
  obtain ⟨t0, ht0, he⟩ := List.mem_map.mp hmem
  refine ⟨t0, ht0, ?_, ?_, ?_⟩
  · have h1 := congrArg RunConfigTask.ID he
    simpa [eraseLevel] using h1
  · have h1 := congrArg RunConfigTask.Name he
    simpa [eraseLevel] using h1
  · have h1 := congrArg RunConfigTask.Depends he
    simpa [eraseLevel] using h1

/-- Claim C1: For every run config whose task dependency graph is acyclic
(with depend edges internal to the map and unique task IDs, as in a Go
map), `GenTasksLevels` succeeds, and afterwards every task has level `≥ 0`,
with level `0` exactly for the tasks with no depends edges, and otherwise
level `1 + max(level(p))` over the tasks `p` the task depends on. -/
theorem genTasksLevels_acyclic_levels (rc : RunConfig) (hA : Acyclic rc.Tasks)
    (hWF : WellFormed rc.Tasks) (hND : (taskIDs rc.Tasks).Nodup) :
    ∃ rc', GenTasksLevels rc = Except.ok rc' ∧
      ∀ t ∈ rc'.Tasks, 0 ≤ t.Level ∧ (t.Level = 0 ↔ t.Depends = []) ∧
        (t.Depends ≠ [] →
          t.Level = 1 + listMax (t.Depends.map (fun d => levelOf rc'.Tasks d.TaskID))) := by
  refine ⟨_, genTasksLevels_ok_of_acyclic hA hWF hND, ?_⟩
  intro t ht
  have ht' : t ∈ levelsPass^[rc.Tasks.length + 1] (initLevels rc.Tasks) := ht
  have hlev := genTasksLevels_final_levels hA hWF hND t ht'
  obtain ⟨t0, ht0, hid, hname, hdep⟩ := final_entry_corresp _ ht'
  have hfind0 : findTask rc.Tasks t.ID = some t0 := by
    rw [← hid]
    exact findTask_self hND ht0
  have hsucc : succs rc.Tasks t.ID = t.Depends.map (fun d => d.TaskID) := by
    unfold succs
    rw [hfind0]
    show t0.Depends.map (fun d => d.TaskID) = t.Depends.map (fun d => d.TaskID)
    rw [hdep]
  have hmemid : t.ID ∈ taskIDs rc.Tasks := by
    rw [← hid]
    exact List.mem_map.mpr ⟨t0, ht0, rfl⟩
  have hn1 : 0 < rc.Tasks.length := by
    cases hc : rc.Tasks with
    | nil => rw [hc] at hmemid; simp [taskIDs] at hmemid
    | cons u rest => simp
  have hnn : 0 ≤ t.Level := by
    rw [hlev]
    exact heightF_nonneg _ _ _
  refine ⟨hnn, ⟨?_, ?_⟩, ?_⟩
  · intro h0
    by_contra hne
    obtain ⟨d, ds, hds⟩ : ∃ d ds, t.Depends = d :: ds := by
      cases hd : t.Depends with
      | nil => exact absurd hd hne
      | cons d ds => exact ⟨d, ds, rfl⟩
    have heq : trueHeight rc.Tasks t.ID =
        1 + listMax ((succs rc.Tasks t.ID).map (trueHeight rc.Tasks)) :=
      trueHeight_eq (chainBound_of_acyclic hA hWF) (by omega)
    have hmem1 : trueHeight rc.Tasks d.TaskID ∈
        (succs rc.Tasks t.ID).map (trueHeight rc.Tasks) := by
      refine List.mem_map.mpr ⟨d.TaskID, ?_, rfl⟩
      rw [hsucc, hds]
      simp
    have hge := le_listMax_of_mem hmem1
    have hnn2 := heightF_nonneg rc.Tasks rc.Tasks.length d.TaskID
    rw [hlev, heq] at h0
    have hnn2' : 0 ≤ trueHeight rc.Tasks d.TaskID := hnn2
    omega
  · intro hdnil
    have hsn : succs rc.Tasks t.ID = [] := by
      rw [hsucc, hdnil]
      rfl
    have heq := trueHeight_eq (chainBound_of_succs_nil hsn) hn1
    rw [hlev, heq, hsn]
    simp [listMax]
  · intro hne
    have heq : trueHeight rc.Tasks t.ID =
        1 + listMax ((succs rc.Tasks t.ID).map (trueHeight rc.Tasks)) :=
      trueHeight_eq (chainBound_of_acyclic hA hWF) (by omega)
    have hmapeq : t.Depends.map (fun d => levelOf
        (levelsPass^[rc.Tasks.length + 1] (initLevels rc.Tasks)) d.TaskID) =
        t.Depends.map (fun d => trueHeight rc.Tasks d.TaskID) := by
      apply List.map_congr_left
      intro d hd
      have hdid : d.TaskID ∈ taskIDs rc.Tasks := by
        apply hWF t0 ht0 d
        rw [hdep]
        exact hd
      exact levelOf_converges hA hWF hND (rc.Tasks.length - 1) d.TaskID hdid
        (chainBound_of_acyclic hA hWF) (by omega) (rc.Tasks.length + 1) (by omega)
    show t.Level = 1 + listMax (t.Depends.map (fun d => levelOf
      (levelsPass^[rc.Tasks.length + 1] (initLevels rc.Tasks)) d.TaskID))
    rw [hmapeq, hlev, heq, hsucc, List.map_map]
    have : (t.Depends.map (fun d => d.TaskID)).map (trueHeight rc.Tasks) =
        t.Depends.map (fun d => trueHeight rc.Tasks d.TaskID) := by
      rw [List.map_map]
      exact List.map_congr_left (fun d _ => rfl)
    rw [← this, List.map_map]

theorem genTasksLevels_acyclic_levels_witness :
    (WellFormed gDiamond ∧ (taskIDs gDiamond).Nodup ∧ AcyclicB gDiamond = true) ∧
    (∃ rc', GenTasksLevels { Tasks := gDiamond } = Except.ok rc' ∧
      ∀ t ∈ rc'.Tasks, 0 ≤ t.Level ∧ (t.Level = 0 ↔ t.Depends = []) ∧
        (t.Depends ≠ [] →
          t.Level = 1 + listMax (t.Depends.map (fun d => levelOf rc'.Tasks d.TaskID)))) :=
  ⟨⟨by decide, by decide, by rfl⟩,
    genTasksLevels_acyclic_levels { Tasks := gDiamond }
      (acyclic_of_acyclicB (by decide) (by rfl)) (by decide) (by decide)⟩

/-- Claim C2: For every run config (with internal depend edges and unique
task IDs), `GenTasksLevels` returns the error `circular dependency
detected` exactly when the dependency graph contains a cycle — also a cycle
not reachable from every task — and succeeds on acyclic inputs. -/
theorem genTasksLevels_error_iff_cycle (rc : RunConfig) (hWF : WellFormed rc.Tasks)
    (hND : (taskIDs rc.Tasks).Nodup) :
    (GenTasksLevels rc = Except.error "circular dependency detected" ↔ HasCycle rc.Tasks) ∧
      (Acyclic rc.Tasks → ∃ rc', GenTasksLevels rc = Except.ok rc') := by
  constructor
  · constructor
    · intro herr
      by_contra hnc
      have hA : Acyclic rc.Tasks := (acyclic_iff_not_hasCycle _).mpr hnc
      rw [genTasksLevels_ok_of_acyclic hA hWF hND] at herr
      simp at herr
    · exact genTasksLevels_error_of_cycle
  · intro hA
    exact ⟨_, genTasksLevels_ok_of_acyclic hA hWF hND⟩

theorem genTasksLevels_error_iff_cycle_witness :
    (WellFormed gPartial ∧ (taskIDs gPartial).Nodup ∧ HasCycle gPartial ∧
      GenTasksLevels { Tasks := gPartial } = Except.error "circular dependency detected") ∧
    (WellFormed gLinear ∧ (taskIDs gLinear).Nodup ∧ AcyclicB gLinear = true ∧
      ∃ rc', GenTasksLevels { Tasks := gLinear } = Except.ok rc') :=
  ⟨⟨by decide, by decide, ⟨"2", 1, by rfl⟩,
      ((genTasksLevels_error_iff_cycle { Tasks := gPartial } (by decide) (by decide)).1).mpr
        ⟨"2", 1, by rfl⟩⟩,
   ⟨by decide, by decide, by rfl,
      (genTasksLevels_error_iff_cycle { Tasks := gLinear } (by decide) (by decide)).2
        (acyclic_of_acyclicB (by decide) (by rfl))⟩⟩

/-- Claim C10: When `GenTasksLevels` succeeds it only assigns levels: every
task's other fields (in particular ID, Name and the depends edges with
their order and targets) are unchanged, and no task is added to or removed
from the task map. -/
theorem genTasksLevels_frame (rc rc' : RunConfig)
    (h : GenTasksLevels rc = Except.ok rc') :
    rc'.Tasks.map eraseLevel = rc.Tasks.map eraseLevel ∧
      rc'.Tasks.length = rc.Tasks.length ∧
      rc'.Tasks.map (fun t => t.ID) = rc.Tasks.map (fun t => t.ID) ∧
      rc'.Tasks.map (fun t => t.Name) = rc.Tasks.map (fun t => t.Name) ∧
      rc'.Tasks.map (fun t => t.Depends) = rc.Tasks.map (fun t => t.Depends) := by
  simp only [GenTasksLevels] at h
  by_cases hC : (levelsPass^[rc.Tasks.length + 1] (initLevels rc.Tasks)).all
      (fun t => decide (0 ≤ t.Level)) = true
  · rw [if_pos hC] at h
    have hT : rc'.Tasks = levelsPass^[rc.Tasks.length + 1] (initLevels rc.Tasks) := by
      injection h with h2
      rw [← h2]
    have hmap : rc'.Tasks.map eraseLevel = rc.Tasks.map eraseLevel := by
      rw [hT]
      exact eraseLevel_iterate _ _
    have hproj : ∀ {β : Type} (f : RunConfigTask → β), (∀ u, f (eraseLevel u) = f u) →
        rc'.Tasks.map f = rc.Tasks.map f := by
      intro β f hf
      have h1 := congrArg (List.map f) hmap
      rw [List.map_map, List.map_map] at h1
      have he : (f ∘ eraseLevel) = f := funext hf
      rwa [he] at h1
    refine ⟨hmap, ?_, hproj _ (fun u => rfl), hproj _ (fun u => rfl),
      hproj _ (fun u => rfl)⟩
    have hl := congrArg List.length hmap
    simpa using hl
  · rw [if_neg hC] at h
    simp at h

theorem genTasksLevels_frame_witness :
    GenTasksLevels { Tasks := gLinear } = Except.ok { Tasks := gLinearLeveled } ∧
    (gLinearLeveled.map eraseLevel = gLinear.map eraseLevel ∧
      gLinearLeveled.length = gLinear.length ∧
      gLinearLeveled.map (fun t => t.ID) = gLinear.map (fun t => t.ID) ∧
      gLinearLeveled.map (fun t => t.Name) = gLinear.map (fun t => t.Name) ∧
      gLinearLeveled.map (fun t => t.Depends) = gLinear.map (fun t => t.Depends)) :=
  ⟨by rfl, genTasksLevels_frame { Tasks := gLinear } { Tasks := gLinearLeveled } (by rfl)⟩

/-! ## Claim theorems: GetAllParents and CheckRunConfig -/

/-- Claim C3: For every task map (with internal depend edges and unique task
IDs) and every task `t` in it, the set of IDs returned by `GetAllParents`
contains `t` itself exactly when `t` lies on a dependency cycle, and every
task appears at most once in the returned set. -/
theorem getAllParents_self_iff_cycle (tasks : List RunConfigTask) (t : RunConfigTask)
    (hWF : WellFormed tasks) (hND : (taskIDs tasks).Nodup) (ht : t ∈ tasks) :
    (t.ID ∈ GetAllParents tasks t ↔ OnCycle tasks t.ID) ∧
      (GetAllParents tasks t).Nodup := by
  constructor
  · constructor
    · intro hmem
      have h2 := List.of_mem_filter hmem
      exact (onCycle_iff_reachable_self hWF t.ID).mpr h2
    · intro hc
      apply List.mem_filter.mpr
      exact ⟨List.mem_map.mpr ⟨t, ht, rfl⟩,
        (onCycle_iff_reachable_self hWF t.ID).mp hc⟩
  · exact List.Nodup.filter _ hND

theorem getAllParents_self_iff_cycle_witness :
    (WellFormed gPartial ∧ (taskIDs gPartial).Nodup ∧
      ({ ID := "2", Name := "task2", Depends := [{ TaskID := "3" }] } : RunConfigTask) ∈
        gPartial) ∧
    ((("2" : String) ∈ GetAllParents gPartial
        { ID := "2", Name := "task2", Depends := [{ TaskID := "3" }] } ↔
        OnCycle gPartial "2") ∧
      (GetAllParents gPartial
        { ID := "2", Name := "task2", Depends := [{ TaskID := "3" }] }).Nodup) ∧
    (GetAllParents gPartial
        { ID := "1", Name := "task1", Depends := [{ TaskID := "2" }] } = ["2", "3"] ∧
      GetAllParents gPartial
        { ID := "2", Name := "task2", Depends := [{ TaskID := "3" }] } = ["2", "3"] ∧
      GetAllParents gPartial
        { ID := "3", Name := "task3", Depends := [{ TaskID := "2" }] } = ["2", "3"]) :=
  ⟨⟨by decide, by decide, by decide⟩,
    getAllParents_self_iff_cycle gPartial
      { ID := "2", Name := "task2", Depends := [{ TaskID := "3" }] }
      (by decide) (by decide) (by decide),
    ⟨by rfl, by rfl, by rfl⟩⟩

theorem filterMap_if_eq_map_filter {α β : Type} (p : α → Prop) [DecidablePred p]
    (f : α → β) (l : List α) :
    (l.filterMap (fun a => if p a then some (f a) else none)) =
      (l.filter (fun a => decide (p a))).map f := by
  induction l with
  | nil => rfl
  | cons x xs ih =>
    by_cases hx : p x
    · simp [List.filterMap_cons, List.filter_cons, hx, ih]
    · simp [List.filterMap_cons, List.filter_cons, hx, ih]

/-- Claim C4: For every run config (internal edges, unique IDs),
`CheckRunConfig` aggregates its diagnostics into one composite value: the
emitted diagnostics are exactly the cycle diagnostics (task name plus the
upstream whose immediate depend leads back) of the tasks lying on a cycle —
one per task appearing in its own `GetAllParents` set — and tasks not on a
cycle contribute none. -/
theorem checkRunConfig_diagnostics (rc : RunConfig) (hWF : WellFormed rc.Tasks)
    (hND : (taskIDs rc.Tasks).Nodup) :
    (∀ s, s ∈ CheckRunConfig rc ↔
      ∃ t, t ∈ rc.Tasks ∧ OnCycle rc.Tasks t.ID ∧ s = cycleDiag rc.Tasks t) ∧
    (CheckRunConfig rc).length =
      (rc.Tasks.filter (fun t => decide (t.ID ∈ GetAllParents rc.Tasks t))).length := by
  have hperm := List.perm_insertionSort taskNameLe rc.Tasks
  constructor
  · intro s
    unfold CheckRunConfig
    rw [filterMap_if_eq_map_filter]
    constructor
    · intro hs
      obtain ⟨t, htmem, rfl⟩ := List.mem_map.mp hs
      have ht2 := List.mem_filter.mp htmem
      have htasks : t ∈ rc.Tasks := hperm.mem_iff.mp ht2.1
      refine ⟨t, htasks, ?_, rfl⟩
      have hmem : t.ID ∈ GetAllParents rc.Tasks t := of_decide_eq_true ht2.2
      have hr := List.of_mem_filter hmem
      exact (onCycle_iff_reachable_self hWF t.ID).mpr hr
    · rintro ⟨t, htasks, hc, rfl⟩
      apply List.mem_map.mpr
      refine ⟨t, ?_, rfl⟩
      apply List.mem_filter.mpr
      refine ⟨hperm.mem_iff.mpr htasks, ?_⟩
      apply decide_eq_true
      apply List.mem_filter.mpr
      exact ⟨List.mem_map.mpr ⟨t, htasks, rfl⟩,
        (onCycle_iff_reachable_self hWF t.ID).mp hc⟩
  · unfold CheckRunConfig
    rw [filterMap_if_eq_map_filter, List.length_map]
    exact (hperm.filter _).length_eq

theorem checkRunConfig_diagnostics_witness :
    (WellFormed gPartial ∧ (taskIDs gPartial).Nodup) ∧
    ((∀ s, s ∈ CheckRunConfig { Tasks := gPartial } ↔
        ∃ t, t ∈ gPartial ∧ OnCycle gPartial t.ID ∧ s = cycleDiag gPartial t) ∧
      (CheckRunConfig { Tasks := gPartial }).length =
        (gPartial.filter (fun t => decide (t.ID ∈ GetAllParents gPartial t))).length) :=
  ⟨⟨by decide, by decide⟩,
    checkRunConfig_diagnostics { Tasks := gPartial } (by decide) (by decide)⟩

/-- Claim C5: For every run config, the diagnostics of `CheckRunConfig` are
the cycle diagnostics of the tasks appearing in their own parent sets, in
ascending task-name order — so the same input always yields them in the
same order. -/
theorem checkRunConfig_sorted_by_name (rc : RunConfig) :
    ∃ ts, ts.Perm (rc.Tasks.filter (fun t => decide (t.ID ∈ GetAllParents rc.Tasks t))) ∧
      List.Sorted taskNameLe ts ∧
      List.Sorted (fun a b => a ≤ b) (ts.map (fun t => t.Name.data)) ∧
      CheckRunConfig rc = ts.map (cycleDiag rc.Tasks) := by
  refine ⟨(List.insertionSort taskNameLe rc.Tasks).filter
      (fun t => decide (t.ID ∈ GetAllParents rc.Tasks t)), ?_, ?_, ?_, ?_⟩
  · exact (List.perm_insertionSort taskNameLe rc.Tasks).filter _
  · exact (List.sorted_insertionSort taskNameLe rc.Tasks).filter _
  · apply List.pairwise_map.mpr
    exact (List.sorted_insertionSort taskNameLe rc.Tasks).filter _
  · unfold CheckRunConfig
    rw [filterMap_if_eq_map_filter]

/-! ## Correspondence lemmas for GenRunConfig -/

theorem compileElement_ok_shape {uuidf : String → String} {rm : String → String → Bool}
    {c : Config} {cp : Pipeline} {vars : List (String × String)}
    {branch tag ref : String} {el : Element} {t0 : RunConfigTask}
    (h : compileElement uuidf rm c cp vars branch tag ref el = Except.ok t0) :
    ∃ ct rt, c.Tasks.find? (fun x => x.Name == el.Task) = some ct ∧
      c.Runtimes.find? (fun r => r.Name == ct.Runtime) = some rt ∧
      t0 = { ID := uuidf el.Name, Name := el.Name, Level := -1,
             Depends := genDepends uuidf el,
             Runtime := some (genRuntime vars rt),
             Environment := genEnv ct.Environment vars,
             Steps := genRunTaskSteps vars ct.Steps,
             Skip := !matchWhen rm el.When branch tag ref,
             IgnoreFailure := el.IgnoreFailure,
             NeedsApproval := el.Approval } := by
  unfold compileElement at h
  split at h
  · simp at h
  · rename_i ct hct
    split at h
    · simp at h
    · rename_i rt hrt
      split at h
      · injection h with h2
        exact ⟨ct, rt, hct, hrt, h2.symm⟩
      · simp at h

theorem compileElement_error_ne_nil {uuidf : String → String} {rm : String → String → Bool}
    {c : Config} {cp : Pipeline} {vars : List (String × String)}
    {branch tag ref : String} {el : Element} {es : List String}
    (h : compileElement uuidf rm c cp vars branch tag ref el = Except.error es) :
    es ≠ [] := by
  unfold compileElement at h
  split at h
  · injection h with h2
    rw [← h2]
    simp
  · split at h
    · injection h with h2
      rw [← h2]
      simp
    · split at h
      · simp at h
      · injection h with h2
        rw [← h2]
        simp

theorem genRunConfigTasks_ok_mem {uuidf : String → String} {rm : String → String → Bool}
    {c : Config} {cp : Pipeline} {vars : List (String × String)}
    {branch tag ref : String} {ts : List RunConfigTask}
    (h : genRunConfigTasks uuidf rm c cp vars branch tag ref = Except.ok ts) :
    (∀ t0 ∈ ts, ∃ el ∈ cp.Elements,
      compileElement uuidf rm c cp vars branch tag ref el = Except.ok t0) ∧
    (∀ el ∈ cp.Elements, ∃ t0 ∈ ts,
      compileElement uuidf rm c cp vars branch tag ref el = Except.ok t0) := by
  unfold genRunConfigTasks at h
  split at h
  case isTrue hempty =>
    injection h with h2
    subst h2
    constructor
    · intro t0 ht0
      obtain ⟨r, hr, hro⟩ := List.mem_filterMap.mp ht0
      obtain ⟨el, hel, hrel⟩ := List.mem_map.mp hr
      refine ⟨el, hel, ?_⟩
      rw [hrel]
      cases hcase : r with
      | error es => rw [hcase] at hro; simp [Except.toOption] at hro
      | ok t1 =>
        rw [hcase] at hro
        simp [Except.toOption] at hro
        rw [hro]
    · intro el hel
      have hr : compileElement uuidf rm c cp vars branch tag ref el ∈
          compileResults uuidf rm c cp vars branch tag ref :=
        List.mem_map.mpr ⟨el, hel, rfl⟩
      cases hcase : compileElement uuidf rm c cp vars branch tag ref el with
      | error es =>
        exfalso
        have hne := compileElement_error_ne_nil hcase
        have hnil : compileErrs (compileResults uuidf rm c cp vars branch tag ref) = [] :=
          List.isEmpty_iff.mp hempty
        unfold compileErrs at hnil
        have hcomp := List.flatMap_eq_nil_iff.mp hnil _ hr
        rw [hcase] at hcomp
        exact hne hcomp
      | ok t0 =>
        refine ⟨t0, ?_, rfl⟩
        apply List.mem_filterMap.mpr
        refine ⟨compileElement uuidf rm c cp vars branch tag ref el, hr, ?_⟩
        rw [hcase]
        rfl
  case isFalse => simp at h

theorem genTasksLevels_ok_shape {rc rc' : RunConfig} (h : GenTasksLevels rc = Except.ok rc') :
    rc'.Name = rc.Name ∧ rc'.Environment = rc.Environment ∧
      rc'.Tasks = levelsPass^[rc.Tasks.length + 1] (initLevels rc.Tasks) := by
  simp only [GenTasksLevels] at h
  split at h
  · injection h with h2
    rw [← h2]
    exact ⟨rfl, rfl, rfl⟩
  · simp at h

theorem eraseLevel_eq_fields {t0 t : RunConfigTask} (h : eraseLevel t0 = eraseLevel t) :
    t0.ID = t.ID ∧ t0.Name = t.Name ∧ t0.Depends = t.Depends ∧ t0.Runtime = t.Runtime ∧
      t0.Environment = t.Environment ∧ t0.Steps = t.Steps ∧ t0.Skip = t.Skip ∧
      t0.IgnoreFailure = t.IgnoreFailure ∧ t0.NeedsApproval = t.NeedsApproval := by
  refine ⟨?_, ?_, ?_, ?_, ?_, ?_, ?_, ?_, ?_⟩
  · have h1 := congrArg RunConfigTask.ID h
    simpa [eraseLevel] using h1
  · have h1 := congrArg RunConfigTask.Name h
    simpa [eraseLevel] using h1
  · have h1 := congrArg RunConfigTask.Depends h
    simpa [eraseLevel] using h1
  · have h1 := congrArg RunConfigTask.Runtime h
    simpa [eraseLevel] using h1
  · have h1 := congrArg RunConfigTask.Environment h
    simpa [eraseLevel] using h1
  · have h1 := congrArg RunConfigTask.Steps h
    simpa [eraseLevel] using h1
  · have h1 := congrArg RunConfigTask.Skip h
    simpa [eraseLevel] using h1
  · have h1 := congrArg RunConfigTask.IgnoreFailure h
    simpa [eraseLevel] using h1
  · have h1 := congrArg RunConfigTask.NeedsApproval h
    simpa [eraseLevel] using h1

theorem final_entry_erase_rev {ts : List RunConfigTask} (k : Nat) {t0 : RunConfigTask}
    (ht0 : t0 ∈ ts) :
    ∃ t ∈ levelsPass^[k] (initLevels ts), eraseLevel t0 = eraseLevel t := by
  have hmem : eraseLevel t0 ∈ ts.map eraseLevel := List.mem_map.mpr ⟨t0, ht0, rfl⟩
  rw [← eraseLevel_iterate ts k] at hmem
  obtain ⟨t, ht, he⟩ := List.mem_map.mp hmem
  exact ⟨t, ht, he.symm⟩

theorem final_entry_erase {ts : List RunConfigTask} (k : Nat) {t : RunConfigTask}
    (ht : t ∈ levelsPass^[k] (initLevels ts)) :
    ∃ t0 ∈ ts, eraseLevel t0 = eraseLevel t := by
  have hmem : eraseLevel t ∈ (levelsPass^[k] (initLevels ts)).map eraseLevel :=
    List.mem_map.mpr ⟨t, ht, rfl⟩
  rw [eraseLevel_iterate] at hmem
  obtain ⟨t0, ht0, he⟩ := List.mem_map.mp hmem
  exact ⟨t0, ht0, he⟩

theorem genRunConfig_ok_elements {uuidf : String → String} {rm : String → String → Bool}
    {c : Config} {pn : String} {env vars : List (String × String)}
    {branch tag ref : String} {rc' : RunConfig}
    (h : GenRunConfig uuidf rm c pn env vars branch tag ref = Except.ok rc') :
    ∃ cp, c.Pipelines.find? (fun p => p.Name == pn) = some cp ∧
      rc'.Name = cp.Name ∧ rc'.Environment = env ∧
      (∀ t ∈ rc'.Tasks, ∃ el ∈ cp.Elements, ∃ t0,
        compileElement uuidf rm c cp vars branch tag ref el = Except.ok t0 ∧
          eraseLevel t0 = eraseLevel t) ∧
      (∀ el ∈ cp.Elements, ∃ t ∈ rc'.Tasks, ∃ t0,
        compileElement uuidf rm c cp vars branch tag ref el = Except.ok t0 ∧
          eraseLevel t0 = eraseLevel t) := by
  unfold GenRunConfig at h
  split at h
  · simp at h
  · rename_i cp hcp
    split at h
    · simp at h
    · rename_i ts hts
      split at h
      · simp at h
      · rename_i rc1 hrc1
        split at h
        · injection h with h2
          subst h2
          obtain ⟨hname, henv, htasks⟩ := genTasksLevels_ok_shape hrc1
          have htasks2 : rc1.Tasks = levelsPass^[ts.length + 1] (initLevels ts) := htasks
          obtain ⟨hfwd, hrev⟩ := genRunConfigTasks_ok_mem hts
          refine ⟨cp, hcp, hname, henv, ?_, ?_⟩
          · intro t ht
            rw [htasks2] at ht
            obtain ⟨t0, ht0, he⟩ := final_entry_erase _ ht
            obtain ⟨el, hel, hok⟩ := hfwd t0 ht0
            exact ⟨el, hel, t0, hok, he⟩
          · intro el hel
            obtain ⟨t0, ht0, hok⟩ := hrev el hel
            obtain ⟨t, ht, he⟩ := final_entry_erase_rev (ts.length + 1) ht0
            rw [← htasks2] at ht
            exact ⟨t, ht, t0, hok, he⟩
        · simp at h

/-! ## Claim theorems: GenRunConfig -/

/-- Claim C6: For every config and pipeline name absent from the config's
pipeline mapping, `GenRunConfig` fails with a `pipeline not found` error
instead of emitting a run config. -/
theorem genRunConfig_pipeline_not_found (uuidf : String → String)
    (rm : String → String → Bool) (c : Config) (pn : String)
    (env vars : List (String × String)) (branch tag ref : String)
    (h : ∀ p ∈ c.Pipelines, p.Name ≠ pn) :
    GenRunConfig uuidf rm c pn env vars branch tag ref =
      Except.error ["pipeline not found"] := by
  unfold GenRunConfig
  have hfind : c.Pipelines.find? (fun p => p.Name == pn) = none := by
    apply List.find?_eq_none.mpr
    intro p hp
    simp [h p hp]
  rw [hfind]

theorem genRunConfig_pipeline_not_found_witness :
    (∀ p ∈ testConfig.Pipelines, p.Name ≠ "pipeline02") ∧
    GenRunConfig testUUID testRM testConfig "pipeline02"
        [("ENV01", "ENVVALUE01")] [("variable01", "VARVALUE01")] "" "" "" =
      Except.error ["pipeline not found"] :=
  ⟨by decide,
    genRunConfig_pipeline_not_found testUUID testRM testConfig "pipeline02"
      [("ENV01", "ENVVALUE01")] [("variable01", "VARVALUE01")] "" "" "" (by decide)⟩

/-- Claim C7: Value resolution maps a literal `EnvVar` to its value verbatim,
a from-variable `EnvVar` to the variables-table entry under its name, and a
from-variable `EnvVar` whose name is absent to the empty string (not an
error); and every task of `GenRunConfig`'s output carries environments
resolved this way at container scope (inside the resolved runtime), task
scope, and step scope. -/
theorem genRunConfig_env_resolution (uuidf : String → String) (rm : String → String → Bool)
    (c : Config) (pn : String) (env vars : List (String × String))
    (branch tag ref : String) (rc' : RunConfig)
    (h : GenRunConfig uuidf rm c pn env vars branch tag ref = Except.ok rc') :
    (∀ (cenv : List (String × EnvVar)) (k : String) (ev : EnvVar), (k, ev) ∈ cenv →
      (k, resolveEnvVar vars ev) ∈ genEnv cenv vars ∧
        (ev.etype = EnvVarType.string → resolveEnvVar vars ev = ev.Value) ∧
        (∀ v, ev.etype = EnvVarType.fromVariable → vars.lookup ev.Value = some v →
          resolveEnvVar vars ev = v) ∧
        (ev.etype = EnvVarType.fromVariable → vars.lookup ev.Value = none →
          resolveEnvVar vars ev = "")) ∧
    (∀ t ∈ rc'.Tasks, ∃ (el : Element) (ct : CTask) (rt : CRuntime),
      c.Tasks.find? (fun x => x.Name == el.Task) = some ct ∧
        c.Runtimes.find? (fun r => r.Name == ct.Runtime) = some rt ∧
        t.Environment = genEnv ct.Environment vars ∧
        t.Runtime = some (genRuntime vars rt) ∧
        t.Steps = genRunTaskSteps vars ct.Steps) := by
  constructor
  · intro cenv k ev hkv
    refine ⟨?_, ?_, ?_, ?_⟩
    · exact List.mem_map.mpr ⟨(k, ev), hkv, rfl⟩
    · intro he
      unfold resolveEnvVar
      rw [he]
    · intro v he hv
      unfold resolveEnvVar
      rw [he, hv]
    · intro he hv
      unfold resolveEnvVar
      rw [he, hv]
  · intro t ht
    obtain ⟨cp, hcp, _, _, hfwd, _⟩ := genRunConfig_ok_elements h
    obtain ⟨el, hel, t0, hok, he⟩ := hfwd t ht
    obtain ⟨ct, rt, hct, hrt, ht0⟩ := compileElement_ok_shape hok
    obtain ⟨_, _, _, hRun, hEnv, hSteps, _, _, _⟩ := eraseLevel_eq_fields he
    refine ⟨el, ct, rt, hct, hrt, ?_, ?_, ?_⟩
    · rw [← hEnv, ht0]
    · rw [← hRun, ht0]
    · rw [← hSteps, ht0]

theorem genRunConfig_env_resolution_witness :
    GenRunConfig testUUID testRM testConfig "pipeline01"
        [("ENV01", "ENVVALUE01")] [("variable01", "VARVALUE01")] "" "" "" =
      Except.ok testExpectedOut ∧
    ((∀ (cenv : List (String × EnvVar)) (k : String) (ev : EnvVar), (k, ev) ∈ cenv →
      (k, resolveEnvVar [("variable01", "VARVALUE01")] ev) ∈
          genEnv cenv [("variable01", "VARVALUE01")] ∧
        (ev.etype = EnvVarType.string →
          resolveEnvVar [("variable01", "VARVALUE01")] ev = ev.Value) ∧
        (∀ v, ev.etype = EnvVarType.fromVariable →
          List.lookup ev.Value [("variable01", "VARVALUE01")] = some v →
          resolveEnvVar [("variable01", "VARVALUE01")] ev = v) ∧
        (ev.etype = EnvVarType.fromVariable →
          List.lookup ev.Value [("variable01", "VARVALUE01")] = none →
          resolveEnvVar [("variable01", "VARVALUE01")] ev = "")) ∧
    (∀ t ∈ testExpectedOut.Tasks, ∃ (el : Element) (ct : CTask) (rt : CRuntime),
      testConfig.Tasks.find? (fun x => x.Name == el.Task) = some ct ∧
        testConfig.Runtimes.find? (fun r => r.Name == ct.Runtime) = some rt ∧
        t.Environment = genEnv ct.Environment [("variable01", "VARVALUE01")] ∧
        t.Runtime = some (genRuntime [("variable01", "VARVALUE01")] rt) ∧
        t.Steps = genRunTaskSteps [("variable01", "VARVALUE01")] ct.Steps)) :=
  ⟨by rfl,
    genRunConfig_env_resolution testUUID testRM testConfig "pipeline01"
      [("ENV01", "ENVVALUE01")] [("variable01", "VARVALUE01")] "" "" ""
      testExpectedOut (by rfl)⟩

/-- Claim C8: A present `when` condition whose trigger context value is
absent (empty) evaluates to no-match, so the predicate fails; and every
element whose `when` predicate fails remains in `GenRunConfig`'s output as a
task with its depend edges, fully resolved runtime, environment and steps,
and `skip = true`. -/
theorem genRunConfig_when_skip (uuidf : String → String) (rm : String → String → Bool)
    (c : Config) (pn : String) (env vars : List (String × String))
    (branch tag ref : String) (rc' : RunConfig) (cp : Pipeline)
    (h : GenRunConfig uuidf rm c pn env vars branch tag ref = Except.ok rc')
    (hcp : c.Pipelines.find? (fun p => p.Name == pn) = some cp) :
    (∀ w : When,
      (w.Branch.isSome ∧ branch = "") ∨ (w.Tag.isSome ∧ tag = "") ∨
        (w.Ref.isSome ∧ ref = "") →
      matchWhen rm (some w) branch tag ref = false) ∧
    (∀ el ∈ cp.Elements, matchWhen rm el.When branch tag ref = false →
      ∃ t ∈ rc'.Tasks, t.ID = uuidf el.Name ∧ t.Name = el.Name ∧ t.Skip = true ∧
        t.Depends = genDepends uuidf el ∧
        ∃ ct rt, c.Tasks.find? (fun x => x.Name == el.Task) = some ct ∧
          c.Runtimes.find? (fun r => r.Name == ct.Runtime) = some rt ∧
          t.Runtime = some (genRuntime vars rt) ∧
          t.Environment = genEnv ct.Environment vars ∧
          t.Steps = genRunTaskSteps vars ct.Steps) := by
  constructor
  · intro w hw
    show ((matchOptCondition rm w.Branch branch &&
      matchOptCondition rm w.Tag tag) && matchOptCondition rm w.Ref ref) = false
    rcases hw with ⟨hb, hbe⟩ | ⟨htg, hte⟩ | ⟨hr, hre⟩
    · obtain ⟨wcs, hwcs⟩ := Option.isSome_iff_exists.mp hb
      rw [hwcs, hbe]
      simp [matchOptCondition]
    · obtain ⟨wcs, hwcs⟩ := Option.isSome_iff_exists.mp htg
      rw [hwcs, hte]
      simp [matchOptCondition]
    · obtain ⟨wcs, hwcs⟩ := Option.isSome_iff_exists.mp hr
      rw [hwcs, hre]
      simp [matchOptCondition]
  · intro el hel hmw
    obtain ⟨cp2, hcp2, _, _, _, hrev⟩ := genRunConfig_ok_elements h
    rw [hcp] at hcp2
    injection hcp2 with hcpe
    subst hcpe
    obtain ⟨t, ht, t0, hok, he⟩ := hrev el hel
    obtain ⟨ct, rt, hct, hrt, ht0⟩ := compileElement_ok_shape hok
    obtain ⟨hID, hName, hDep, hRun, hEnv, hSteps, hSkip, _, _⟩ := eraseLevel_eq_fields he
    refine ⟨t, ht, ?_, ?_, ?_, ?_, ct, rt, hct, hrt, ?_, ?_, ?_⟩
    · rw [← hID, ht0]
    · rw [← hName, ht0]
    · rw [← hSkip, ht0]
      show (!matchWhen rm el.When branch tag ref) = true
      rw [hmw]
      rfl
    · rw [← hDep, ht0]
    · rw [← hRun, ht0]
    · rw [← hEnv, ht0]
    · rw [← hSteps, ht0]

theorem genRunConfig_when_skip_witness :
    (GenRunConfig testUUID testRM testConfig "pipeline01"
        [("ENV01", "ENVVALUE01")] [("variable01", "VARVALUE01")] "" "" "" =
      Except.ok testExpectedOut ∧
     testConfig.Pipelines.find? (fun p => p.Name == "pipeline01") =
      some { Name := "pipeline01", Elements := [testElement] }) ∧
    ((∀ w : When,
      (w.Branch.isSome ∧ ("" : String) = "") ∨ (w.Tag.isSome ∧ ("" : String) = "") ∨
        (w.Ref.isSome ∧ ("" : String) = "") →
      matchWhen testRM (some w) "" "" "" = false) ∧
    (∀ el ∈ ({ Name := "pipeline01", Elements := [testElement] } : Pipeline).Elements,
      matchWhen testRM el.When "" "" "" = false →
      ∃ t ∈ testExpectedOut.Tasks, t.ID = testUUID el.Name ∧ t.Name = el.Name ∧
        t.Skip = true ∧ t.Depends = genDepends testUUID el ∧
        ∃ ct rt, testConfig.Tasks.find? (fun x => x.Name == el.Task) = some ct ∧
          testConfig.Runtimes.find? (fun r => r.Name == ct.Runtime) = some rt ∧
          t.Runtime = some (genRuntime [("variable01", "VARVALUE01")] rt) ∧
          t.Environment = genEnv ct.Environment [("variable01", "VARVALUE01")] ∧
          t.Steps = genRunTaskSteps [("variable01", "VARVALUE01")] ct.Steps)) :=
  ⟨⟨by rfl, by rfl⟩,
    genRunConfig_when_skip testUUID testRM testConfig "pipeline01"
      [("ENV01", "ENVVALUE01")] [("variable01", "VARVALUE01")] "" "" ""
      testExpectedOut { Name := "pipeline01", Elements := [testElement] }
      (by rfl) (by rfl)⟩

/-- Claim C9: `GenRunConfig` is deterministic: two invocations on identical
inputs with the same injected identity generator produce structurally
identical run configs, and each output task's ID is the identity generator
applied to its element name. -/
theorem genRunConfig_deterministic_ids (uuidf : String → String)
    (rm : String → String → Bool) (c : Config) (pn : String)
    (env vars : List (String × String)) (branch tag ref : String)
    (rc1 rc2 : RunConfig)
    (h1 : GenRunConfig uuidf rm c pn env vars branch tag ref = Except.ok rc1)
    (h2 : GenRunConfig uuidf rm c pn env vars branch tag ref = Except.ok rc2) :
    rc1 = rc2 ∧ ∀ t ∈ rc1.Tasks, t.ID = uuidf t.Name := by
  constructor
  · rw [h1] at h2
    injection h2 with h3
  · intro t ht
    obtain ⟨cp, hcp, _, _, hfwd, _⟩ := genRunConfig_ok_elements h1
    obtain ⟨el, hel, t0, hok, he⟩ := hfwd t ht
    obtain ⟨ct, rt, _, _, ht0⟩ := compileElement_ok_shape hok
    obtain ⟨hID, hName, _⟩ := eraseLevel_eq_fields he
    rw [← hID, ← hName, ht0]

theorem genRunConfig_deterministic_ids_witness :
    testExpectedOut = testExpectedOut ∧
      ∀ t ∈ testExpectedOut.Tasks, t.ID = testUUID t.Name :=
  genRunConfig_deterministic_ids testUUID testRM testConfig "pipeline01"
    [("ENV01", "ENVVALUE01")] [("variable01", "VARVALUE01")] "" "" ""
    testExpectedOut testExpectedOut (by rfl) (by rfl)
